import Mathlib

/-!
Verification development for the clean-my-mac scanner core.

The TypeScript source is shallowly embedded:
* strings are Lean `String`s, with every operation implemented over the
  underlying character list (ASCII-faithful; the program only manipulates
  ASCII folder names and paths);
* the regex literals of the source are embedded through a small token
  machine (`RTok`/`RPat`) whose constructs cover exactly the features the
  source uses: single characters, two-character classes, an optional
  character, a whitespace star, and an optional end anchor;
* asynchronous port calls become `Except String` valued functions;
  thrown errors are `Except.error` carrying the message;
* the per-level worker pool of `runWithConcurrency` is modelled by a
  scheduler argument giving, for each directory, the order in which the
  entries' tasks complete; a valid scheduler is any per-directory
  permutation of the listed entries.
-/

namespace CleanMyMac

/-- JS `\s` restricted to ASCII whitespace. -/
def wsChars : List Char := [' ', '\t', '\n', '\r', Char.ofNat 11, Char.ofNat 12]

/-- One token of the embedded regexes: a character class, an optional
character, or a whitespace star. -/
inductive RTok where
  | cls (cs : List Char)
  | opt (cs : List Char)
  | star (cs : List Char)
deriving Repr, DecidableEq

/-- Remainders reachable by consuming a prefix of characters from `cs`. -/
def starRems (cs : List Char) : List Char → List (List Char)
  | [] => [[]]
  | c :: rest => (c :: rest) :: (if cs.contains c then starRems cs rest else [])

/-- Remainders after matching one token at the head of the input. -/
def tokRems : RTok → List Char → List (List Char)
  | .cls _, [] => []
  | .cls cs, c :: rest => if cs.contains c then [rest] else []
  | .opt _, [] => [[]]
  | .opt cs, c :: rest => (c :: rest) :: (if cs.contains c then [rest] else [])
  | .star cs, s => starRems cs s

/-- Remainders after matching a token sequence at the head of the input. -/
def seqRems : List RTok → List Char → List (List Char)
  | [], s => [s]
  | t :: ts, s => ((tokRems t s).map (seqRems ts)).flatten

/-- An embedded regex: a token sequence, optionally anchored at the end
(`$`).  All source regexes are unanchored at the start. -/
structure RPat where
  toks : List RTok
  atEnd : Bool
deriving Repr, DecidableEq

/-- JS `RegExp.prototype.test`: the pattern matches somewhere in `s`. -/
def rtest (p : RPat) (s : String) : Bool :=
  s.data.tails.any (fun suf =>
    (seqRems p.toks suf).any (fun rem => !p.atEnd || rem.isEmpty))

/-- A sequence of literal character tokens. -/
def lits (s : String) : List RTok :=
  s.data.map (fun c => RTok.cls [c])

/-- A two-character class such as `[Cc]`. -/
def cls2 (a b : Char) : RTok := .cls [a, b]

/-- SAFE_DELETE_PATTERNS of src/domain/deletability-rules.ts, in source
order.  Every array element is a regex literal (the string branch of the
matching loop is dead code). -/
def SAFE_DELETE_PATTERNS : List RPat := [
  ⟨[cls2 'C' 'c'] ++ lits "ache" ++ [cls2 'S' 's'] ++ lits "torag" ++ [.opt ['e']], true⟩,
  ⟨[cls2 'C' 'c'] ++ lits "ache" ++ [.opt ['s']], true⟩,
  ⟨[cls2 'C' 'c'] ++ lits "aches", true⟩,
  ⟨lits ".cache", true⟩,
  ⟨[cls2 'C' 'c'] ++ lits "ache.db", true⟩,
  ⟨[cls2 'L' 'l'] ++ lits "og" ++ [.opt ['s']], true⟩,
  ⟨lits ".log", true⟩,
  ⟨[cls2 'T' 't'] ++ lits "emp" ++ [.opt ['s']], true⟩,
  ⟨[cls2 'T' 't'] ++ lits "emporary", false⟩,
  ⟨[cls2 'T' 't'] ++ lits "mp", true⟩,
  ⟨[cls2 'S' 's'] ++ lits "ervice" ++ [.star wsChars, cls2 'W' 'w'] ++ lits "orker", false⟩,
  ⟨[cls2 'S' 's'] ++ lits "w.js", true⟩,
  ⟨[cls2 'I' 'i'] ++ lits "ndexedDB", true⟩,
  ⟨[cls2 'L' 'l'] ++ lits "ocal" ++ [.star wsChars, cls2 'S' 's'] ++ lits "torage", true⟩,
  ⟨[cls2 'G' 'g'] ++ lits "pucache", true⟩,
  ⟨[cls2 'S' 's'] ++ lits "hadercache", true⟩,
  ⟨[cls2 'C' 'c'] ++ lits "ode" ++ [.star wsChars, cls2 'C' 'c'] ++ lits "ache", true⟩,
  ⟨lits ".old", true⟩,
  ⟨lits ".bak", true⟩,
  ⟨lits ".backup", true⟩]

/-- UNSAFE_PATTERNS of src/domain/deletability-rules.ts, in source order. -/
def UNSAFE_PATTERNS : List RPat := [
  ⟨[cls2 'D' 'd'] ++ lits "ata", true⟩,
  ⟨[cls2 'U' 'u'] ++ lits "ser" ++ [.star wsChars, cls2 'D' 'd'] ++ lits "ata", true⟩,
  ⟨[cls2 'D' 'd'] ++ lits "atabase" ++ [.opt ['s']], true⟩,
  ⟨[cls2 'P' 'p'] ++ lits "reference" ++ [.opt ['s']], true⟩,
  ⟨[cls2 'P' 'p'] ++ lits "ref" ++ [.opt ['s']], true⟩,
  ⟨[cls2 'E' 'e'] ++ lits "xtension" ++ [.opt ['s']], true⟩,
  ⟨[cls2 'P' 'p'] ++ lits "lugin" ++ [.opt ['s']], true⟩,
  ⟨[cls2 'S' 's'] ++ lits "aved" ++ [.star wsChars, cls2 'S' 's'] ++ lits "tate", true⟩,
  ⟨lits ".app", true⟩,
  ⟨lits ".app.dSYM", true⟩,
  ⟨[cls2 'C' 'c'] ++ lits "ode" ++ [cls2 'S' 's'] ++ lits "ignature", false⟩]

/-- LEAF_CACHE_DIR_PATTERNS of src/domain/deletability-rules.ts, in source
order. -/
def LEAF_CACHE_DIR_PATTERNS : List RPat := [
  ⟨[cls2 'I' 'i'] ++ lits "ndexedDB", false⟩,
  ⟨lits ".indexeddb.leveldb", true⟩,
  ⟨lits ".leveldb", true⟩,
  ⟨[cls2 'L' 'l'] ++ lits "ocal" ++ [.star wsChars, cls2 'S' 's'] ++ lits "torage", false⟩,
  ⟨lits "leveldb", true⟩,
  ⟨[cls2 'C' 'c'] ++ lits "ache" ++ [cls2 'S' 's'] ++ lits "torag" ++ [.opt ['e']], true⟩,
  ⟨[cls2 'C' 'c'] ++ lits "ache" ++ [.opt ['s']], true⟩,
  ⟨[cls2 'C' 'c'] ++ lits "aches", true⟩,
  ⟨lits ".cache", true⟩,
  ⟨[cls2 'L' 'l'] ++ lits "og" ++ [.opt ['s']], true⟩,
  ⟨[cls2 'H' 'h'] ++ lits "istory", true⟩,
  ⟨[cls2 'T' 't'] ++ lits "emp" ++ [.opt ['s']], true⟩,
  ⟨[cls2 'T' 't'] ++ lits "emporary", false⟩,
  ⟨[cls2 'T' 't'] ++ lits "mp", true⟩,
  ⟨[cls2 'G' 'g'] ++ lits "pucache", true⟩,
  ⟨[cls2 'S' 's'] ++ lits "hadercache", true⟩,
  ⟨[cls2 'C' 'c'] ++ lits "ode" ++ [.star wsChars, cls2 'C' 'c'] ++ lits "ache", true⟩]

/-- A pattern list matched, as in the source loops, against the full path
or the item name. -/
def matchAny (pats : List RPat) (itemPath itemName : String) : Bool :=
  pats.any (fun r => rtest r itemPath || rtest r itemName)

/-- The eight scan categories (SCAN_CATEGORY of src/domain/scan-category.ts). -/
inductive ScanCategory where
  | appSupport
  | caches
  | preferences
  | savedAppState
  | containers
  | groupContainers
  | launchItems
  | system
deriving Repr, DecidableEq

/-- Risk levels of src/domain/scan-item.ts. -/
inductive RiskLevel where
  | low
  | medium
  | high
  | critical
deriving Repr, DecidableEq

/-- categoryRisk of src/application/services/scan-service.ts. -/
def categoryRisk : ScanCategory → RiskLevel
  | .appSupport => .medium
  | .caches => .low
  | .preferences => .high
  | .savedAppState => .low
  | .containers => .medium
  | .groupContainers => .medium
  | .launchItems => .high
  | .system => .critical

/-- The pattern ending in `.db` used in the classifier's database check. -/
def dbEndRe : RPat := ⟨lits ".db", true⟩

/-- The unanchored cache-database pattern of the classifier's database
check. -/
def cacheDbRe : RPat := ⟨[cls2 'C' 'c'] ++ lits "ache.db", false⟩

/-- isSafeToDelete of src/domain/deletability-rules.ts. -/
def isSafeToDelete (itemPath itemName : String) (category : ScanCategory)
    (depth : Nat) : Bool :=
  if depth > 4 then false
  else if category = .preferences ∨ category = .launchItems then false
  else if matchAny SAFE_DELETE_PATTERNS itemPath itemName then true
  else if matchAny UNSAFE_PATTERNS itemPath itemName then false
  else if rtest dbEndRe itemPath && !rtest cacheDbRe itemPath then false
  else if category = .caches then true
  else if category = .savedAppState then true
  else false

/-- Character-list split on `/`, as produced by JS `String.prototype.split`. -/
def splitSlash (s : List Char) : List (List Char) :=
  match s with
  | [] => [[]]
  | c :: rest =>
    let r := splitSlash rest
    if c = '/' then [] :: r
    else match r with
      | [] => [[c]]
      | h :: t => (c :: h) :: t

/-- calculateDepth of src/domain/deletability-rules.ts. -/
def calculateDepth (itemPath basePath : String) : Nat :=
  ((splitSlash (itemPath.data.drop basePath.length)).filter
    (fun p => p.length > 0)).length

/-- isLeafCacheDirectory of src/domain/deletability-rules.ts. -/
def isLeafCacheDirectory (dirPath dirName : String) : Bool :=
  matchAny LEAF_CACHE_DIR_PATTERNS dirPath dirName

example : isSafeToDelete "/x/Foo/Caches" "Caches" .caches 1 = true := by decide
example : isSafeToDelete "/x/Foo/Preferences" "Preferences" .appSupport 1 = false := by decide
example : isLeafCacheDirectory "/p" "Cache" = true := by decide
example : isLeafCacheDirectory "/p" "MyAppData" = false := by decide
example : isSafeToDelete "/x/Temporary Data" "Temporary Data" .appSupport 1 = true := by decide

/-- JS `trim`, restricted to ASCII whitespace. -/
def trimWs (s : List Char) : List Char :=
  ((s.dropWhile (fun c => wsChars.contains c)).reverse.dropWhile
    (fun c => wsChars.contains c)).reverse

/-- ASCII upper-casing, as `String.prototype.toUpperCase` on ASCII input. -/
def upperStr (s : String) : String := ⟨s.data.map Char.toUpper⟩

/-- ASCII lower-casing, as `String.prototype.toLowerCase` on ASCII input. -/
def lowerStr (s : String) : String := ⟨s.data.map Char.toLower⟩

/-- Numeric value of a digit string, as read by `parseFloat` for the
integral or fractional digits. -/
def digitsVal (ds : List Char) : Nat :=
  ds.foldl (fun acc c => acc * 10 + (c.toNat - 48)) 0

/-- Unit multiplier table of parseSizeThreshold; `none` when the remainder
is not an optional unit followed by the end of the string. -/
def unitEnd : List Char → Option Nat
  | [] => some 1
  | ['B'] => some 1
  | ['K', 'B'] => some 1024
  | ['M', 'B'] => some (1024 * 1024)
  | ['G', 'B'] => some (1024 * 1024 * 1024)
  | ['T', 'B'] => some (1024 * 1024 * 1024 * 1024)
  | _ => none

/-- Lexer for the anchored pattern of parseSizeThreshold
(a digit run, an optional dot plus digit run, optional whitespace, an
optional unit).  Returns the scaled numerator `a`, the scale `p` (a power
of ten), and the unit multiplier: the parsed number is `a / p`. -/
def lexSize (s : List Char) : Option (Nat × Nat × Nat) :=
  let (ds, rest) := s.span Char.isDigit
  if ds.isEmpty then none
  else
    match rest with
    | '.' :: r2 =>
      let (fs, r3) := r2.span Char.isDigit
      if fs.isEmpty then none
      else
        (unitEnd (r3.dropWhile (fun c => wsChars.contains c))).map
          (fun mult => (digitsVal ds * 10 ^ fs.length + digitsVal fs, 10 ^ fs.length, mult))
    | _ =>
      (unitEnd (rest.dropWhile (fun c => wsChars.contains c))).map
        (fun mult => (digitsVal ds, 1, mult))

/-- parseSizeThreshold of src/utils/parse-size-threshold.ts, with the
environment variable passed explicitly.  An absent or empty value (falsy
in JS) yields no threshold; a lexed value `a / p` with multiplier `m`
yields `Math.floor(a / p * m)`, computed here in exact arithmetic as
`a * m / p`. -/
def parseSizeThreshold (envValue : Option String) : Option Nat :=
  match envValue with
  | none => none
  | some v =>
    if v = "" then none
    else
      (lexSize (upperStr ⟨trimWs v.data⟩).data).map
        (fun t => t.1 * t.2.2 / t.2.1)

/-- DEFAULT_SIZE_THRESHOLD_BYTES of src/application/services/scan-service.ts. -/
def DEFAULT_SIZE_THRESHOLD_BYTES : Nat := 10 * 1024 * 1024

/-- The threshold selected by the ScanService constructor:
`parseSizeThreshold() ?? DEFAULT_SIZE_THRESHOLD_BYTES`. -/
def scanThreshold (envValue : Option String) : Nat :=
  (parseSizeThreshold envValue).getD DEFAULT_SIZE_THRESHOLD_BYTES

example : parseSizeThreshold (some "100MB") = some (100 * 1024 * 1024) := by decide
example : parseSizeThreshold (some " 1.5 kb ") = some 1536 := by decide
example : parseSizeThreshold (some "12XB") = none := by decide
example : parseSizeThreshold (some "1024") = some 1024 := by decide

/-- InstalledApp of src/application/ports/app-detection.port.ts; the
nullable bundle id becomes an `Option`. -/
structure InstalledApp where
  name : String
  bundleId : Option String
  path : String
deriving Repr, DecidableEq

/-- Match types of AppMatchResult (src/application/services/app-matcher.ts). -/
inductive MatchType where
  | exactName
  | bundleId
  | partialName
  | none
deriving Repr, DecidableEq

/-- AppMatchResult of src/application/services/app-matcher.ts. -/
structure AppMatchResult where
  isInstalled : Bool
  matchedApp : Option InstalledApp
  matchType : MatchType
deriving Repr, DecidableEq

/-- normalizeName of AppMatcher: lower-case, then keep only `[a-z0-9]`
(dropping whitespace first is subsumed by the alphanumeric filter). -/
def normalizeName (s : String) : String :=
  ⟨(s.data.map Char.toLower).filter (fun c => c.isLower || c.isDigit)⟩

/-- Substring containment, as JS `String.prototype.includes`. -/
def containsStr (hay sub : String) : Bool :=
  hay.data.tails.any (fun t => sub.data.isPrefixOf t)

/-- Prefix test, as JS `String.prototype.startsWith`. -/
def startsW (s pre : String) : Bool := pre.data.isPrefixOf s.data

/-- First-registration-wins insertion used when building the AppMatcher
lookup maps. -/
def insertNew (m : List (String × InstalledApp)) (k : String)
    (v : InstalledApp) : List (String × InstalledApp) :=
  if m.any (fun p => p.1 = k) then m else m ++ [(k, v)]

/-- The by-name lookup map built by the AppMatcher constructor. -/
def buildNameMap (apps : List InstalledApp) : List (String × InstalledApp) :=
  apps.foldl (fun m a => insertNew m (normalizeName a.name) a) []

/-- The by-bundle-id lookup map built by the AppMatcher constructor
(a null or empty bundle id is falsy in JS and registers nothing). -/
def buildBundleMap (apps : List InstalledApp) : List (String × InstalledApp) :=
  apps.foldl (fun m a =>
    match a.bundleId with
    | some b => if b ≠ "" then insertNew m (lowerStr b) a else m
    | Option.none => m) []

/-- AppMatcher state: the installed list and the two lookup maps. -/
structure AppMatcher where
  installedApps : List InstalledApp
  appNameMap : List (String × InstalledApp)
  bundleIdMap : List (String × InstalledApp)
deriving Repr, DecidableEq

/-- The AppMatcher constructor. -/
def AppMatcher.build (apps : List InstalledApp) : AppMatcher :=
  ⟨apps, buildNameMap apps, buildBundleMap apps⟩

/-- Map lookup on the association lists. -/
def findMap (m : List (String × InstalledApp)) (k : String) :
    Option InstalledApp :=
  (m.find? (fun p => p.1 = k)).map (fun p => p.2)

/-- Strategy 3 check of AppMatcher.match: case-insensitive containment of
the regex-escaped literal app name in the folder name. -/
def strat3 (folderName : String) (a : InstalledApp) : Bool :=
  containsStr (lowerStr folderName) (lowerStr a.name)

/-- Split into maximal whitespace-free runs (JS `split(/\s+/)` on trimmed
input, after removing the empty fragments the filter below drops anyway). -/
def splitWsRuns : List Char → List (List Char)
  | [] => []
  | c :: rest =>
    if wsChars.contains c then splitWsRuns rest
    else
      match rest with
      | [] => [[c]]
      | d :: _ =>
        if wsChars.contains d then [c] :: splitWsRuns rest
        else
          match splitWsRuns rest with
          | [] => [[c]]
          | w :: ws₁ => (c :: w) :: ws₁

/-- The significant words of an app name: a space is inserted before every
ASCII capital, the result is trimmed, lower-cased, split on whitespace
runs, and words of length at most 2 are dropped. -/
def appNameWords (name : String) : List String :=
  let spaced := name.data.foldr
    (fun c acc => if c.isUpper then ' ' :: c :: acc else c :: acc) []
  let t := (trimWs spaced).map Char.toLower
  (((splitWsRuns t).filter (fun w => w.length > 2)).map
    (fun w => (⟨w⟩ : String)))

/-- Total variant of the strategy 4 check: at least one significant word,
and every significant word contained (case-insensitively) in the folder
name.  The source tests each UNESCAPED word as a regular expression
(`new RegExp(word, 'i').test(...)`), so this variant resolves the engine
to literal containment — adequate only for metacharacter-free words; on a
word with metacharacters the engine may match more ('.' is a wildcard) or
throw a SyntaxError out of match().  `strat4R` below keeps the engine
abstract, with error propagation, and is the embedding the matcher claim
is settled against; the scan-level theorems use this total variant only
through the matcher's verdict, which they treat as opaque. -/
def strat4 (folderNameLower : String) (a : InstalledApp) : Bool :=
  let ws := appNameWords a.name
  !ws.isEmpty && ws.all (fun w => containsStr folderNameLower w)

/-- Strategy 5 check of AppMatcher.match: the normalized folder name
contains the normalized app name, gated by a normalized length of at
least 4. -/
def strat5 (normFolder : String) (a : InstalledApp) : Bool :=
  containsStr normFolder (normalizeName a.name) &&
    (normalizeName a.name).length ≥ 4

/-- JS `split('.')` on the character list. -/
def splitDot (s : List Char) : List (List Char) :=
  match s with
  | [] => [[]]
  | c :: rest =>
    let r := splitDot rest
    if c = '.' then [] :: r
    else match r with
      | [] => [[c]]
      | h :: t => (c :: h) :: t

/-- The bundle-id cross-containment check of AppMatcher.match, evaluated
per bundle-id-map entry: dot-segment equality or containment of the
normalized folder name, containment of the bundle id in the folder name
(with or without its dots), or containment of the final dot segment
(skipped when empty, which is falsy in JS). -/
def strat6 (folderNameLower normFolder : String)
    (e : String × InstalledApp) : Bool :=
  let bid := e.1
  let parts := (splitDot bid.data).map (fun p => (⟨p⟩ : String))
  let lastPart := parts.getLastD ""
  (parts.contains normFolder || containsStr bid normFolder)
  || (containsStr folderNameLower bid ||
      containsStr normFolder ⟨bid.data.filter (fun c => c ≠ '.')⟩)
  || (lastPart ≠ "" && containsStr normFolder lastPart)

/-- The generic-overlap check of AppMatcher.match, evaluated per name-map
entry: containment in either direction with an overlap of at least
`min 4 (min folderLength nameLength)`. -/
def strat7 (normFolder : String) (e : String × InstalledApp) : Bool :=
  let appName := e.1
  let minOverlap := min 4 (min normFolder.length appName.length)
  (containsStr normFolder appName && appName.length ≥ minOverlap)
  || (containsStr appName normFolder && normFolder.length ≥ minOverlap)

/-- The common-variation check of AppMatcher.match: prefix match in either
direction, or equality with the app name after dropping whitespace and
optionally a trailing "app". -/
def strat8 (folderNameLower : String) (a : InstalledApp) : Bool :=
  let an := lowerStr a.name
  let anNoWs : String := ⟨an.data.filter (fun c => !wsChars.contains c)⟩
  let anStripped : String :=
    if anNoWs.data.reverse.take 3 = ['p', 'p', 'a'] then
      ⟨anNoWs.data.dropLast.dropLast.dropLast⟩
    else anNoWs
  startsW folderNameLower an || startsW an folderNameLower
  || folderNameLower = anNoWs
  || folderNameLower = anStripped

/-- The single pass of AppMatcher.match over the installed list, checking
strategies 3, 4 and 5 app by app, first success wins. -/
def loopApps (folderName folderNameLower normFolder : String) :
    List InstalledApp → Option AppMatchResult
  | [] => Option.none
  | a :: rest =>
    if strat3 folderName a then some ⟨true, some a, .partialName⟩
    else if strat4 folderNameLower a then some ⟨true, some a, .partialName⟩
    else if strat5 normFolder a then some ⟨true, some a, .partialName⟩
    else loopApps folderName folderNameLower normFolder rest

/-- AppMatcher.match of src/application/services/app-matcher.ts
(`match` is a reserved word in Lean), transliterated from the source
control flow, with the word-regex test of strategy 4 resolved to literal
containment (see `strat4`).  This total variant backs the scan
orchestrator model, whose theorems are insensitive to the matcher's
verdict; the engine-explicit, fallible transliteration is `matchAppR`
below. -/
def matchApp (m : AppMatcher) (folderName : String) : AppMatchResult :=
  let normFolder := normalizeName folderName
  let folderNameLower := lowerStr folderName
  match findMap m.appNameMap normFolder with
  | some app => ⟨true, some app, .exactName⟩
  | Option.none =>
  match findMap m.bundleIdMap normFolder with
  | some app => ⟨true, some app, .bundleId⟩
  | Option.none =>
  match loopApps folderName folderNameLower normFolder m.installedApps with
  | some r => r
  | Option.none =>
  match m.bundleIdMap.find? (fun e => strat6 folderNameLower normFolder e) with
  | some e => ⟨true, some e.2, .bundleId⟩
  | Option.none =>
  match m.appNameMap.find? (fun e => strat7 normFolder e) with
  | some e => ⟨true, some e.2, .partialName⟩
  | Option.none =>
  match m.installedApps.find? (fun a => strat8 folderNameLower a) with
  | some a => ⟨true, some a, .partialName⟩
  | Option.none => ⟨false, Option.none, MatchType.none⟩

/-- The word-test engine: the behaviour of the host's
`new RegExp(word, 'i').test(folderNameLower)` on an UNESCAPED word.
`Except.error` is a SyntaxError thrown by the RegExp constructor on a
malformed word (such as "c++" or "beta)"); on a metacharacter-free word a
conforming engine answers case-insensitive literal containment. -/
def WordTest : Type := String → String → Except String Bool

/-- The source's
`appNameWords.every(word => new RegExp(word, 'i').test(folderNameLower))`:
words are tried in order, the first rejected word stops the check, and a
constructor error escapes AppMatcher.match. -/
def wordsCheckR (rex : WordTest) (folderNameLower : String) :
    List String → Except String Bool
  | [] => .ok true
  | w :: ws =>
    match rex w folderNameLower with
    | .error e => .error e
    | .ok false => .ok false
    | .ok true => wordsCheckR rex folderNameLower ws

/-- Strategy 4 check of AppMatcher.match with the engine explicit: at
least one significant word, and every significant word accepted by the
unescaped word regex. -/
def strat4R (rex : WordTest) (folderNameLower : String)
    (a : InstalledApp) : Except String Bool :=
  let ws := appNameWords a.name
  if ws.isEmpty then .ok false else wordsCheckR rex folderNameLower ws

/-- The single pass of AppMatcher.match over the installed list with the
engine explicit: for each app in order, strategy 3, then strategy 4
(propagating an engine error), then strategy 5; first success wins. -/
def loopAppsR (rex : WordTest)
    (folderName folderNameLower normFolder : String) :
    List InstalledApp → Except String (Option AppMatchResult)
  | [] => .ok Option.none
  | a :: rest =>
    if strat3 folderName a then .ok (some ⟨true, some a, .partialName⟩)
    else
      match strat4R rex folderNameLower a with
      | .error e => .error e
      | .ok true => .ok (some ⟨true, some a, .partialName⟩)
      | .ok false =>
        if strat5 normFolder a then .ok (some ⟨true, some a, .partialName⟩)
        else loopAppsR rex folderName folderNameLower normFolder rest

/-- AppMatcher.match with the word-regex engine of strategy 4 explicit:
the faithful transliteration the matcher claim is settled against.  A
SyntaxError from a malformed word escapes as `Except.error`, exactly as
the exception escapes match() in the source. -/
def matchAppR (rex : WordTest) (m : AppMatcher) (folderName : String) :
    Except String AppMatchResult :=
  let normFolder := normalizeName folderName
  let folderNameLower := lowerStr folderName
  match findMap m.appNameMap normFolder with
  | some app => .ok ⟨true, some app, .exactName⟩
  | Option.none =>
  match findMap m.bundleIdMap normFolder with
  | some app => .ok ⟨true, some app, .bundleId⟩
  | Option.none =>
  match loopAppsR rex folderName folderNameLower normFolder
      m.installedApps with
  | .error e => .error e
  | .ok (some r) => .ok r
  | .ok Option.none =>
  match m.bundleIdMap.find? (fun e => strat6 folderNameLower normFolder e) with
  | some e => .ok ⟨true, some e.2, .bundleId⟩
  | Option.none =>
  match m.appNameMap.find? (fun e => strat7 normFolder e) with
  | some e => .ok ⟨true, some e.2, .partialName⟩
  | Option.none =>
  match m.installedApps.find? (fun a => strat8 folderNameLower a) with
  | some a => .ok ⟨true, some a, .partialName⟩
  | Option.none => .ok ⟨false, Option.none, MatchType.none⟩

/-- First-success scan with error propagation. -/
def findSomeER {α β : Type} (g : α → Except String (Option β)) :
    List α → Except String (Option β)
  | [] => .ok Option.none
  | a :: l =>
    match g a with
    | .error e => .error e
    | .ok (some b) => .ok (some b)
    | .ok Option.none => findSomeER g l

/-- One app of the amended claim's combined pass: literal containment,
then the word check through the engine, then gated normalized
containment. -/
def perApp345R (rex : WordTest)
    (folderName folderNameLower normFolder : String) (a : InstalledApp) :
    Except String (Option AppMatchResult) :=
  if strat3 folderName a then .ok (some ⟨true, some a, .partialName⟩)
  else
    match strat4R rex folderNameLower a with
    | .error e => .error e
    | .ok true => .ok (some ⟨true, some a, .partialName⟩)
    | .ok false =>
      if strat5 normFolder a then .ok (some ⟨true, some a, .partialName⟩)
      else .ok Option.none

/-- The amended claim's combined app-by-app pass over the installed
list. -/
def stage345R (rex : WordTest)
    (folderName folderNameLower normFolder : String)
    (apps : List InstalledApp) : Except String (Option AppMatchResult) :=
  findSomeER (perApp345R rex folderName folderNameLower normFolder) apps

/-- Modelled from the amended claim: exact-name, exact-bundle-id, one
app-by-app pass combining strategies 3–5 over the engine (its errors
propagating), then bundle-id cross-containment, generic overlap, and
common variations; first success wins, with the no-match result as
fallback. -/
def matchAmendedSpecR (rex : WordTest) (m : AppMatcher)
    (folderName : String) : Except String AppMatchResult :=
  let normFolder := normalizeName folderName
  let folderNameLower := lowerStr folderName
  let s1 := (findMap m.appNameMap normFolder).map
    (fun app => (⟨true, some app, .exactName⟩ : AppMatchResult))
  let s2 := (findMap m.bundleIdMap normFolder).map
    (fun app => (⟨true, some app, .bundleId⟩ : AppMatchResult))
  match s1.or s2 with
  | some r => .ok r
  | Option.none =>
    match stage345R rex folderName folderNameLower normFolder
        m.installedApps with
    | .error e => .error e
    | .ok o345 =>
      let s6 := (m.bundleIdMap.find? (fun e =>
        strat6 folderNameLower normFolder e)).map
        (fun e => (⟨true, some e.2, .bundleId⟩ : AppMatchResult))
      let s7 := (m.appNameMap.find? (fun e => strat7 normFolder e)).map
        (fun e => (⟨true, some e.2, .partialName⟩ : AppMatchResult))
      let s8 := (m.installedApps.find? (fun a => strat8 folderNameLower a)).map
        (fun a => (⟨true, some a, .partialName⟩ : AppMatchResult))
      .ok ((((o345.or s6).or s7).or s8).getD
        ⟨false, Option.none, MatchType.none⟩)

/-- Modelled from the claim's strategy-major reading of the spec: the
eight strategies evaluated over the same engine, each strategy scanning
the whole installed list before the next is tried, first success wins. -/
def matchStrategyMajorR (rex : WordTest) (m : AppMatcher)
    (folderName : String) : Except String AppMatchResult :=
  let normFolder := normalizeName folderName
  let folderNameLower := lowerStr folderName
  let s1 := (findMap m.appNameMap normFolder).map
    (fun app => (⟨true, some app, .exactName⟩ : AppMatchResult))
  let s2 := (findMap m.bundleIdMap normFolder).map
    (fun app => (⟨true, some app, .bundleId⟩ : AppMatchResult))
  let s3 := (m.installedApps.find? (fun a => strat3 folderName a)).map
    (fun a => (⟨true, some a, .partialName⟩ : AppMatchResult))
  match (s1.or s2).or s3 with
  | some r => .ok r
  | Option.none =>
    match findSomeER (fun a =>
        match strat4R rex folderNameLower a with
        | .error e => .error e
        | .ok true =>
          .ok (some (⟨true, some a, .partialName⟩ : AppMatchResult))
        | .ok false => .ok Option.none) m.installedApps with
    | .error e => .error e
    | .ok o4 =>
      let s5 := (m.installedApps.find? (fun a => strat5 normFolder a)).map
        (fun a => (⟨true, some a, .partialName⟩ : AppMatchResult))
      let s6 := (m.bundleIdMap.find? (fun e =>
        strat6 folderNameLower normFolder e)).map
        (fun e => (⟨true, some e.2, .bundleId⟩ : AppMatchResult))
      let s7 := (m.appNameMap.find? (fun e => strat7 normFolder e)).map
        (fun e => (⟨true, some e.2, .partialName⟩ : AppMatchResult))
      let s8 := (m.installedApps.find? (fun a => strat8 folderNameLower a)).map
        (fun a => (⟨true, some a, .partialName⟩ : AppMatchResult))
      .ok (((((o4.or s5).or s6).or s7).or s8).getD
        ⟨false, Option.none, MatchType.none⟩)

/-- A concrete engine answering case-insensitive literal containment and
never failing.  A conforming host engine agrees with it on every
metacharacter-free word. -/
def containsOracle : WordTest := fun w folderNameLower =>
  .ok (containsStr folderNameLower w)

example :
    matchAppR (fun _ _ => .error "SyntaxError")
      (AppMatcher.build [⟨"Big App", Option.none, "/Applications/Big App.app"⟩])
      "something" = .error "SyntaxError" := rfl

example :
    matchApp (AppMatcher.build [⟨"Notion", some "notion.id", "/Applications/Notion.app"⟩]) "Notion"
      = ⟨true, some ⟨"Notion", some "notion.id", "/Applications/Notion.app"⟩, .exactName⟩ := by
  decide

example :
    (matchApp (AppMatcher.build [⟨"BreakTimer", Option.none, "/Applications/BreakTimer.app"⟩])
      "com.tomjwatson.breaktimer.ShipIt").isInstalled = true := by
  decide

example :
    matchApp (AppMatcher.build []) "Anything"
      = ⟨false, Option.none, MatchType.none⟩ := by
  decide

/-- Entry types of the file-system port. -/
inductive EntryType where
  | file
  | directory
  | symlink
  | other
deriving Repr, DecidableEq

/-- FileSystemEntry of src/application/ports/file-system.port.ts. -/
structure FsEntry where
  name : String
  path : String
  type : EntryType
deriving Repr, DecidableEq

/-- FileStats; the `Date` is carried as its ISO string. -/
structure FileStats where
  modifiedAt : String
deriving Repr, DecidableEq

/-- The FileSystem and DiskUsage ports consumed by the scanner.  A thrown
error is an `Except.error` carrying the message. -/
structure Ports where
  existsPath : String → Bool
  listEntries : String → Except String (List FsEntry)
  getSizeInKb : String → Except String Nat
  stat : String → Except String FileStats

/-- ScanTarget of src/domain/scan-item.ts (the optional guideline plays no
role in scanning). -/
structure ScanTarget where
  path : String
  category : ScanCategory
  isSystem : Bool
deriving Repr, DecidableEq

/-- ScanItem of src/domain/scan-item.ts. -/
structure ScanItem where
  name : String
  path : String
  category : ScanCategory
  sizeKb : Nat
  sizeBytes : Nat
  modifiedAt : String
  type : EntryType
  riskLevel : RiskLevel
  safeToDelete : Bool
  parentTargetPath : String
  appInstalled : Option Bool
  matchedAppName : Option String
deriving Repr, DecidableEq

/-- A skipped entry of the report. -/
structure SkippedItem where
  path : String
  reason : String
deriving Repr, DecidableEq

/-- The orchestrator's orphan-override pattern
`/[Pp]reference[s]?|[Dd]ata$|[Uu]ser\s*[Dd]ata/` as a disjunction of its
three alternatives. -/
def hasUnsafePattern (p : String) : Bool :=
  rtest ⟨[cls2 'P' 'p'] ++ lits "reference" ++ [.opt ['s']], false⟩ p
  || rtest ⟨[cls2 'D' 'd'] ++ lits "ata", true⟩ p
  || rtest ⟨[cls2 'U' 'u'] ++ lits "ser" ++ [.star wsChars, cls2 'D' 'd'] ++ lits "ata", false⟩ p

/-- The categories the orchestrator recurses into. -/
def recursableCategory (c : ScanCategory) : Bool :=
  c = ScanCategory.appSupport || c = ScanCategory.containers ||
    c = ScanCategory.groupContainers || c = ScanCategory.caches

/-- The per-entry match result consulted by the task body: present exactly
when a matcher is active and the target category is application-support. -/
def entryMatch (matcher : Option AppMatcher) (tgt : ScanTarget)
    (entry : FsEntry) : Option AppMatchResult :=
  match matcher with
  | some m =>
    if tgt.category = ScanCategory.appSupport
    then some (matchApp m entry.name) else Option.none
  | Option.none => Option.none

/-- The safeToDelete value recorded for an entry: the classifier's
verdict, overridden to true for an uninstalled app whose path avoids the
explicit override patterns. -/
def entrySafeToDelete (matcher : Option AppMatcher) (tgt : ScanTarget)
    (entry : FsEntry) : Bool :=
  let safe0 := isSafeToDelete entry.path entry.name tgt.category
    (calculateDepth entry.path tgt.path)
  match entryMatch matcher tgt entry with
  | some r =>
    if !r.isInstalled && !safe0 && !hasUnsafePattern entry.path
    then true else safe0
  | Option.none => safe0

/-- The ScanItem pushed for a measured entry. -/
def entryScanItem (matcher : Option AppMatcher) (tgt : ScanTarget)
    (entry : FsEntry) (sizeKb : Nat) (st : FileStats) : ScanItem :=
  ⟨entry.name, entry.path, tgt.category, sizeKb, sizeKb * 1024,
    st.modifiedAt, entry.type, categoryRisk tgt.category,
    entrySafeToDelete matcher tgt entry, tgt.path,
    (entryMatch matcher tgt entry).map (fun r => r.isInstalled),
    (entryMatch matcher tgt entry).bind
      (fun r => r.matchedApp.map (fun a => a.name))⟩

/-- The recursion guard of the task body: below the per-category depth
cap, not a leaf cache directory, and a recursable category. -/
def shouldRecurseB (tgt : ScanTarget) (entry : FsEntry)
    (currentDepth : Nat) : Bool :=
  decide (currentDepth <
      (if tgt.category = ScanCategory.appSupport then 4 else 3)) &&
    !isLeafCacheDirectory entry.path entry.name &&
    recursableCategory tgt.category

/-- The task body of ScanService.scanTargetRecursive for one directory
entry.  `recurse` is the recursive scan of deeper levels; the items and
skipped entries contributed by this entry's task are returned.  An error
from sizing, stat-ing, or recursing lands in the skipped list with the
error's message; an item already recorded before a recursion error is
kept, as the source pushes it before recursing. -/
def processEntry (thr : Nat) (ports : Ports) (matcher : Option AppMatcher)
    (tgt : ScanTarget)
    (recurse : String → Nat → Except String (List ScanItem × List SkippedItem))
    (entry : FsEntry) (currentDepth : Nat) :
    List ScanItem × List SkippedItem :=
  if entry.type ≠ EntryType.directory then ([], [])
  else
    match ports.getSizeInKb entry.path with
    | .error e => ([], [⟨entry.path, e⟩])
    | .ok sizeKb =>
      if sizeKb * 1024 < thr then ([], [])
      else
        match ports.stat entry.path with
        | .error e => ([], [⟨entry.path, e⟩])
        | .ok st =>
          let item := entryScanItem matcher tgt entry sizeKb st
          if shouldRecurseB tgt entry currentDepth then
            match recurse entry.path (currentDepth + 1) with
            | .error e => ([item], [⟨entry.path, e⟩])
            | .ok (subItems, subSkipped) => (item :: subItems, subSkipped)
          else ([item], [])

/-- A completion schedule for the per-level worker pool: the order in
which the entry tasks of each directory finish. -/
def Sched : Type := String → List FsEntry → List FsEntry

/-- A schedule is valid when it only reorders the listed entries, which is
what the shared-index worker pool of runWithConcurrency guarantees: every
entry is processed exactly once. -/
def ValidSched (σ : Sched) : Prop :=
  ∀ p l, (σ p l).Perm l

/-- The sequential schedule: with one worker, tasks complete in list
order. -/
def seqSched : Sched := fun _ l => l

/-- ScanService.scanTargetRecursive.  The fuel argument only serves
termination: levels deepen one at a time, the source's depth guard stops
at depth 5, and every caller supplies fuel 6, so the fuel never runs
out. -/
def scanTargetRecursive (thr : Nat) (ports : Ports)
    (matcher : Option AppMatcher) (σ : Sched) (tgt : ScanTarget) :
    Nat → String → Nat → Except String (List ScanItem × List SkippedItem)
  | 0, _, _ => .ok ([], [])
  | fuel + 1, basePath, currentDepth =>
    if currentDepth > 4 then .ok ([], [])
    else
      match ports.listEntries basePath with
      | .error e => .error e
      | .ok entries =>
        let results := (σ basePath entries).map
          (fun entry =>
            processEntry thr ports matcher tgt
              (scanTargetRecursive thr ports matcher σ tgt fuel)
              entry currentDepth)
        .ok ((results.map Prod.fst).flatten, (results.map Prod.snd).flatten)

/-- The order of Object.keys(categoryRisk): insertion order of the record
literal in scan-service.ts. -/
def allCategories : List ScanCategory :=
  [.appSupport, .caches, .preferences, .savedAppState, .containers,
   .groupContainers, .launchItems, .system]

/-- One step of the totals fold: add `n` to the entry keyed `c` (every
category key is present in the initial table, so the `?? 0` fallback of
the source is dead). -/
def bumpTotal (m : List (ScanCategory × Nat)) (c : ScanCategory) (n : Nat) :
    List (ScanCategory × Nat) :=
  m.map (fun p => if p.1 = c then (p.1, p.2 + n) else p)

/-- ScanService.sumByCategory: a table with all 8 keys initialized to 0,
then item sizes added per category. -/
def sumByCategory (items : List ScanItem) : List (ScanCategory × Nat) :=
  items.foldl (fun m it => bumpTotal m it.category it.sizeBytes)
    (allCategories.map (fun c => (c, 0)))

/-- ScanReport of src/domain/scan-item.ts; the totals record becomes the
association list built by sumByCategory. -/
structure ScanReport where
  generatedAt : String
  targets : List ScanTarget
  items : List ScanItem
  totalsByCategory : List (ScanCategory × Nat)
  skipped : List SkippedItem
deriving Repr, DecidableEq

/-- The per-target loop of ScanService.scan: targets are scanned strictly
sequentially; a top-level listing failure of a target propagates (the
source has no catch around the per-target call). -/
def scanTargets (thr : Nat) (ports : Ports) (matcher : Option AppMatcher)
    (σ : Sched) :
    List ScanTarget → Except String (List ScanItem × List SkippedItem)
  | [] => .ok ([], [])
  | t :: ts =>
    match scanTargetRecursive thr ports matcher σ t 6 t.path 0 with
    | .error e => .error e
    | .ok (items, skipped) =>
      match scanTargets thr ports matcher σ ts with
      | .error e => .error e
      | .ok (items', skipped') => .ok (items ++ items', skipped ++ skipped')

/-- ScanService.scan: threshold from the environment override, optional
matcher from the installed-app list, existing targets only, sequential
per-target scans, and the report with per-category totals. -/
def scan (ports : Ports) (σ : Sched) (apps : Option (List InstalledApp))
    (envThreshold : Option String) (targets : List ScanTarget)
    (now : String) : Except String ScanReport :=
  let thr := scanThreshold envThreshold
  let matcher := apps.map AppMatcher.build
  let avail := targets.filter (fun t => ports.existsPath t.path)
  match scanTargets thr ports matcher σ avail with
  | .error e => .error e
  | .ok (items, skipped) =>
    .ok ⟨now, avail, items, sumByCategory items, skipped⟩

/-- TreeNode of the tree-navigation service.  The childrens' `Map` is an
insertion-ordered association list. -/
inductive TreeNode where
  | node (name fullPath : String) (sizeBytes : Nat) (items : List ScanItem)
      (children : List (String × TreeNode)) (isLeaf : Bool) (depth : Nat)
      (appInstalled : Option Bool) (matchedAppName : Option String)
      (isOrphaned : Bool)
deriving Repr

def TreeNode.name : TreeNode → String
  | .node n _ _ _ _ _ _ _ _ _ => n

def TreeNode.fullPath : TreeNode → String
  | .node _ f _ _ _ _ _ _ _ _ => f

def TreeNode.sizeBytes : TreeNode → Nat
  | .node _ _ s _ _ _ _ _ _ _ => s

def TreeNode.items : TreeNode → List ScanItem
  | .node _ _ _ i _ _ _ _ _ _ => i

def TreeNode.children : TreeNode → List (String × TreeNode)
  | .node _ _ _ _ c _ _ _ _ _ => c

def TreeNode.isLeaf : TreeNode → Bool
  | .node _ _ _ _ _ l _ _ _ _ => l

def TreeNode.depth : TreeNode → Nat
  | .node _ _ _ _ _ _ d _ _ _ => d

def TreeNode.appInstalled : TreeNode → Option Bool
  | .node _ _ _ _ _ _ _ a _ _ => a

def TreeNode.matchedAppName : TreeNode → Option String
  | .node _ _ _ _ _ _ _ _ m _ => m

def TreeNode.isOrphaned : TreeNode → Bool
  | .node _ _ _ _ _ _ _ _ _ o => o

/-- A freshly created node of buildTree. -/
def freshNode (part curPath : String) (i : Nat) : TreeNode :=
  .node part curPath 0 [] [] false i Option.none Option.none false

/-- `path.join` on a directory and a plain segment. -/
def pathJoin (a b : String) : String := a ++ "/" ++ b

/-- The terminal update of buildTree: record the item on its node. -/
def setLeaf (n : TreeNode) (item : ScanItem) : TreeNode :=
  .node n.name n.fullPath (n.sizeBytes + item.sizeBytes)
    (n.items ++ [item]) n.children true n.depth item.appInstalled
    item.matchedAppName (item.appInstalled = some false)

/-- Find-or-create then update of the insertion-ordered child map: the
first binding of the key is replaced in place, a missing key is appended
(JS `Map.prototype.set` order). -/
def updChild (m : List (String × TreeNode)) (key : String)
    (f : Option TreeNode → TreeNode) : List (String × TreeNode) :=
  match m with
  | [] => [(key, f Option.none)]
  | (k, v) :: rest =>
    if k = key then (k, f (some v)) :: rest
    else (k, v) :: updChild rest key f

/-- The per-item descent of buildTree along the relative path parts,
updating sizes, leaf marks and first-wins status along the way. -/
def insertParts (item : ScanItem) :
    List String → String → Nat → List (String × TreeNode) →
      List (String × TreeNode)
  | [], _, _, m => m
  | [part], curPath, i, m =>
    updChild m part (fun ex =>
      setLeaf (ex.getD (freshNode part (pathJoin curPath part) i)) item)
  | part :: rest₁ :: rest₂, curPath, i, m =>
    updChild m part (fun ex =>
      let n := ex.getD (freshNode part (pathJoin curPath part) i)
      let inherited :=
        n.appInstalled.isNone && item.appInstalled.isSome
      .node n.name n.fullPath (n.sizeBytes + item.sizeBytes) n.items
        (insertParts item (rest₁ :: rest₂) (pathJoin curPath part) (i + 1)
          n.children)
        n.isLeaf n.depth
        (if inherited then item.appInstalled else n.appInstalled)
        (if inherited then item.matchedAppName else n.matchedAppName)
        (if inherited then (item.appInstalled = some false) else n.isOrphaned))

/-- The relative path parts of an item below the base path:
`item.path.slice(basePath.length + 1)` split on `/`, empty segments
dropped. -/
def relParts (itemPath basePath : String) : List String :=
  ((splitSlash (itemPath.data.drop (basePath.length + 1))).filter
    (fun p => p.length > 0)).map (fun p => (⟨p⟩ : String))

/-- One iteration of buildTree's item loop: items whose relative path is
empty are skipped, the rest descend through insertParts. -/
def buildStep (basePath : String) (m : List (String × TreeNode))
    (item : ScanItem) : List (String × TreeNode) :=
  let parts := relParts item.path basePath
  if parts.isEmpty then m else insertParts item parts basePath 0 m

/-- buildTree of the tree-navigation service: items grouped into a prefix
tree by their path segments relative to the base path. -/
def buildTree (items : List ScanItem) (basePath : String) :
    List (String × TreeNode) :=
  items.foldl (buildStep basePath) []

/-- Node lookup along a path of segments. -/
def findNode : List (String × TreeNode) → List String → Option TreeNode
  | _, [] => Option.none
  | m, [p] => ((m.find? (fun e => e.1 = p)).map (fun e => e.2))
  | m, p :: rest₁ :: rest₂ =>
    match (m.find? (fun e => e.1 = p)).map (fun e => e.2) with
    | some n => findNode n.children (rest₁ :: rest₂)
    | Option.none => Option.none

/-- A scan item with only path and size populated, for concrete tree
inputs. -/
def bareItem (p : String) (n : Nat) : ScanItem :=
  ⟨"", p, .caches, 0, n, "", .directory, .low, false, "",
    Option.none, Option.none⟩

example :
    ((findNode (buildTree [bareItem "/base/A/B" 10, bareItem "/base/A/C" 5]
      "/base") ["A"]).map TreeNode.sizeBytes) = some 15 := by decide

example :
    ((findNode (buildTree [bareItem "/base/A/B" 10, bareItem "/base/A/C" 5]
      "/base") ["A", "B"]).map
        (fun n => (n.sizeBytes, n.isLeaf))) = some (10, true) := by decide

example :
    ((findNode (buildTree [bareItem "/base/A/B" 10, bareItem "/base/A/C" 5]
      "/base") ["A", "C"]).map
        (fun n => (n.sizeBytes, n.isLeaf))) = some (5, true) := by decide

/-- C1: a directory entry whose measured size in bytes (getSizeInKb times
1024) is strictly below the threshold contributes no item and no skipped
entry, and its task never invokes the recursive scan — the continuation
`recurse` is universally quantified, so the result is independent of
whatever the entry's subtree contains. -/
theorem below_threshold_entry_is_pruned (thr : Nat) (ports : Ports)
    (matcher : Option AppMatcher) (tgt : ScanTarget)
    (recurse : String → Nat → Except String (List ScanItem × List SkippedItem))
    (entry : FsEntry) (d k : Nat)
    (htype : entry.type = EntryType.directory)
    (hsize : ports.getSizeInKb entry.path = .ok k)
    (hlt : k * 1024 < thr) :
    processEntry thr ports matcher tgt recurse entry d = ([], []) := by
  unfold processEntry
  rw [htype, hsize]
  simp [hlt]

/-- Concrete instantiation of the C1 theorem. -/
theorem below_threshold_entry_is_pruned_witness :
    processEntry 10485760
      ⟨fun _ => true, fun _ => .ok [], fun _ => .ok 4, fun _ => .ok ⟨""⟩⟩
      Option.none ⟨"/t", .caches, false⟩
      (fun _ _ => .ok ([bareItem "/t/A/sub" 1], []))
      ⟨"A", "/t/A", .directory⟩ 0 = ([], []) :=
  below_threshold_entry_is_pruned _ _ _ _ _ _ _ 4 rfl rfl (by decide)

/-- C2: for depth at most 4 and a category outside preferences and
launch-items, a match of any safe pattern on the name or the path makes
isSafeToDelete return true, regardless of the unsafe patterns — the safe
loop runs first. -/
theorem safe_patterns_win (p n : String) (c : ScanCategory) (d : Nat)
    (hd : d ≤ 4) (hc1 : c ≠ ScanCategory.preferences)
    (hc2 : c ≠ ScanCategory.launchItems)
    (hsafe : matchAny SAFE_DELETE_PATTERNS p n = true) :
    isSafeToDelete p n c d = true := by
  unfold isSafeToDelete
  have hd4 : ¬ d > 4 := by omega
  simp [hd4, hc1, hc2, hsafe]

/-- Concrete instantiation of the C2 theorem on a name that matches both a
safe pattern (Temporary) and an unsafe pattern (trailing Data). -/
theorem safe_patterns_win_witness :
    isSafeToDelete "/x/Temporary Data" "Temporary Data"
      ScanCategory.appSupport 1 = true :=
  safe_patterns_win _ _ _ _ (by omega) (by decide) (by decide) (by decide)

/-- C3: in an application-support scan with an active matcher, the
recorded item of a measured entry carries safeToDelete = true when the app
is not installed, the classifier said not-safe, and the path avoids the
explicit override patterns; in every other case it carries the
classifier's verdict. -/
theorem orphan_override_on_safe_to_delete (thr : Nat) (ports : Ports)
    (m : AppMatcher) (tgt : ScanTarget)
    (recurse : String → Nat → Except String (List ScanItem × List SkippedItem))
    (entry : FsEntry) (d k : Nat) (st : FileStats)
    (htype : entry.type = EntryType.directory)
    (hcat : tgt.category = ScanCategory.appSupport)
    (hsize : ports.getSizeInKb entry.path = .ok k)
    (hge : ¬ k * 1024 < thr)
    (hstat : ports.stat entry.path = .ok st) :
    (((processEntry thr ports (some m) tgt recurse entry d).1.head?).map
        (fun it => it.safeToDelete)) =
      some (if !(matchApp m entry.name).isInstalled
                && !isSafeToDelete entry.path entry.name tgt.category
                    (calculateDepth entry.path tgt.path)
                && !hasUnsafePattern entry.path
            then true
            else isSafeToDelete entry.path entry.name tgt.category
                (calculateDepth entry.path tgt.path)) := by
  have hhead :
      (processEntry thr ports (some m) tgt recurse entry d).1.head? =
        some (entryScanItem (some m) tgt entry k st) := by
    unfold processEntry
    rw [if_neg (by simp [htype])]
    simp only [hsize]
    rw [if_neg hge]
    simp only [hstat]
    by_cases hsr : shouldRecurseB tgt entry d = true
    · simp only [hsr, if_true]
      cases hr : recurse entry.path (d + 1) with
      | error e => simp
      | ok res => rcases res with ⟨si, ss⟩; simp
    · simp only [Bool.not_eq_true] at hsr
      simp [hsr]
  rw [hhead]
  unfold entryScanItem entrySafeToDelete entryMatch
  simp [hcat]

/-- Concrete instantiation of the C3 theorem: an uninstalled app folder
with no unsafe pattern in the path is forced to safeToDelete = true. -/
theorem orphan_override_on_safe_to_delete_witness :
    (((processEntry 10485760
        ⟨fun _ => true, fun _ => .ok [], fun _ => .ok 20480,
          fun _ => .ok ⟨"2024-01-01"⟩⟩
        (some (AppMatcher.build [])) ⟨"/t", .appSupport, false⟩
        (fun _ _ => .ok ([], []))
        ⟨"OldApp", "/t/OldApp", .directory⟩ 0).1.head?).map
          (fun it => it.safeToDelete)) = some true := by
  rw [orphan_override_on_safe_to_delete 10485760
    ⟨fun _ => true, fun _ => .ok [], fun _ => .ok 20480,
      fun _ => .ok ⟨"2024-01-01"⟩⟩
    (AppMatcher.build []) ⟨"/t", .appSupport, false⟩
    (fun _ _ => .ok ([], []))
    ⟨"OldApp", "/t/OldApp", .directory⟩ 0 20480 ⟨"2024-01-01"⟩
    rfl rfl rfl (by decide) rfl]
  decide

/-- The processEntry fragment of C10: a non-directory entry is dismissed
before any port is consulted — the ports are universally quantified, so
nothing is measured, recorded, or recursed into for it. -/
theorem non_directory_is_skipped (thr : Nat) (ports : Ports)
    (matcher : Option AppMatcher) (tgt : ScanTarget)
    (recurse : String → Nat → Except String (List ScanItem × List SkippedItem))
    (entry : FsEntry) (d : Nat)
    (htype : entry.type ≠ EntryType.directory) :
    processEntry thr ports matcher tgt recurse entry d = ([], []) := by
  unfold processEntry
  simp [htype]

/-- Items contributed by one entry task all have type directory, provided
the recursive continuation only produces such items. -/
theorem processEntry_types (thr : Nat) (ports : Ports)
    (matcher : Option AppMatcher) (tgt : ScanTarget)
    (recurse : String → Nat → Except String (List ScanItem × List SkippedItem))
    (entry : FsEntry) (d : Nat)
    (hrec : ∀ p d' its sk, recurse p d' = .ok (its, sk) →
      ∀ it ∈ its, it.type = EntryType.directory) :
    ∀ it ∈ (processEntry thr ports matcher tgt recurse entry d).1,
      it.type = EntryType.directory := by
  intro it hit
  unfold processEntry at hit
  by_cases h1 : entry.type ≠ EntryType.directory
  · simp [h1] at hit
  · push_neg at h1
    rw [if_neg (by simpa using h1)] at hit
    cases hsz : ports.getSizeInKb entry.path with
    | error e => simp only [hsz] at hit; simp at hit
    | ok k =>
      simp only [hsz] at hit
      by_cases h2 : k * 1024 < thr
      · simp [h2] at hit
      · rw [if_neg h2] at hit
        cases hst : ports.stat entry.path with
        | error e => simp only [hst] at hit; simp at hit
        | ok st =>
          simp only [hst] at hit
          have htype : (entryScanItem matcher tgt entry k st).type =
              EntryType.directory := by
            simp [entryScanItem, h1]
          by_cases hsr : shouldRecurseB tgt entry d = true
          · simp only [hsr, if_true] at hit
            cases hr : recurse entry.path (d + 1) with
            | error e =>
              simp only [hr] at hit
              simp at hit
              rw [hit]; exact htype
            | ok res =>
              rcases res with ⟨subItems, subSkipped⟩
              simp only [hr, List.mem_cons] at hit
              rcases hit with hit | hit
              · rw [hit]; exact htype
              · exact hrec _ _ _ _ hr it hit
          · simp only [Bool.not_eq_true] at hsr
            simp only [hsr, Bool.false_eq_true, if_false] at hit
            simp at hit
            rw [hit]; exact htype

/-- Every item produced by a recursive target scan has type directory. -/
theorem scanTargetRecursive_types (thr : Nat) (ports : Ports)
    (matcher : Option AppMatcher) (σ : Sched) (tgt : ScanTarget) :
    ∀ (fuel : Nat) (basePath : String) (d : Nat) its sk,
      scanTargetRecursive thr ports matcher σ tgt fuel basePath d =
        .ok (its, sk) →
      ∀ it ∈ its, it.type = EntryType.directory := by
  intro fuel
  induction fuel with
  | zero =>
    intro bp d its sk h
    simp only [scanTargetRecursive, Except.ok.injEq, Prod.mk.injEq] at h
    rcases h with ⟨h1, _⟩
    subst h1
    simp
  | succ fuel ih =>
    intro bp d its sk h
    unfold scanTargetRecursive at h
    by_cases hd : d > 4
    · rw [if_pos hd] at h
      simp only [Except.ok.injEq, Prod.mk.injEq] at h
      rcases h with ⟨h1, _⟩
      subst h1
      simp
    · rw [if_neg hd] at h
      cases hle : ports.listEntries bp with
      | error e => simp [hle] at h
      | ok es =>
        simp only [hle, Except.ok.injEq, Prod.mk.injEq] at h
        rcases h with ⟨h1, _⟩
        subst h1
        intro it hit
        rw [List.map_map, List.mem_flatten] at hit
        rcases hit with ⟨l, hl, hitl⟩
        rw [List.mem_map] at hl
        rcases hl with ⟨entry, _, hleq⟩
        subst hleq
        exact processEntry_types thr ports matcher tgt _ entry d
          (fun p d' its' sk' h' => ih p d' its' sk' h') it hitl

/-- Every item produced by the per-target loop has type directory. -/
theorem scanTargets_types (thr : Nat) (ports : Ports)
    (matcher : Option AppMatcher) (σ : Sched) :
    ∀ (ts : List ScanTarget) its sk,
      scanTargets thr ports matcher σ ts = .ok (its, sk) →
      ∀ it ∈ its, it.type = EntryType.directory := by
  intro ts
  induction ts with
  | nil =>
    intro its sk h
    simp only [scanTargets, Except.ok.injEq, Prod.mk.injEq] at h
    rcases h with ⟨h1, _⟩
    subst h1
    simp
  | cons t ts ih =>
    intro its sk h
    unfold scanTargets at h
    cases h1 : scanTargetRecursive thr ports matcher σ t 6 t.path 0 with
    | error e => simp [h1] at h
    | ok res =>
      rcases res with ⟨i1, s1⟩
      simp only [h1] at h
      cases h2 : scanTargets thr ports matcher σ ts with
      | error e => simp [h2] at h
      | ok res2 =>
        rcases res2 with ⟨i2, s2⟩
        simp only [h2, Except.ok.injEq, Prod.mk.injEq] at h
        rcases h with ⟨hi, _⟩
        subst hi
        intro it hit
        rw [List.mem_append] at hit
        rcases hit with hit | hit
        · exact scanTargetRecursive_types thr ports matcher σ t 6 t.path 0
            i1 s1 h1 it hit
        · exact ih i2 s2 h2 it hit

/-- C10: entries listed as file, symlink or other are dismissed before any
measurement — with the ports universally quantified, their task result is
empty regardless of the file system — so every ScanItem a successful scan
report carries has type directory, even though the data model admits the
other types. -/
theorem scan_records_only_directories :
    (∀ (thr : Nat) (ports : Ports) (matcher : Option AppMatcher)
        (tgt : ScanTarget)
        (recurse : String → Nat →
          Except String (List ScanItem × List SkippedItem))
        (entry : FsEntry) (d : Nat),
        entry.type ≠ EntryType.directory →
        processEntry thr ports matcher tgt recurse entry d = ([], [])) ∧
    (∀ (ports : Ports) (σ : Sched) (apps : Option (List InstalledApp))
        (env : Option String) (targets : List ScanTarget) (now : String)
        (r : ScanReport),
        scan ports σ apps env targets now = .ok r →
        ∀ it ∈ r.items, it.type = EntryType.directory) := by
  constructor
  · intro thr ports matcher tgt recurse entry d htype
    unfold processEntry
    simp [htype]
  · intro ports σ apps env targets now r h
    unfold scan at h
    cases hst : scanTargets (scanThreshold env) ports
        (apps.map AppMatcher.build) σ
        (targets.filter (fun t => ports.existsPath t.path)) with
    | error e => simp [hst] at h
    | ok res =>
      rcases res with ⟨items, skipped⟩
      simp only [hst, Except.ok.injEq] at h
      subst h
      exact scanTargets_types _ ports _ σ _ items skipped hst

/-- Concrete ports for witnesses: one 10 MiB directory A under the root
target /t, nothing deeper. -/
def wPorts : Ports :=
  ⟨fun _ => true,
   fun p => if p = "/t" then .ok [⟨"A", "/t/A", .directory⟩] else .ok [],
   fun _ => .ok 10240,
   fun _ => .ok ⟨"2024-01-01"⟩⟩

/-- The report produced by scanning /t (category caches) through wPorts. -/
def wReport : ScanReport :=
  ⟨"now", [⟨"/t", .caches, false⟩],
   [⟨"A", "/t/A", .caches, 10240, 10485760, "2024-01-01",
     .directory, .low, true, "/t", Option.none, Option.none⟩],
   [(.appSupport, 0), (.caches, 10485760), (.preferences, 0),
    (.savedAppState, 0), (.containers, 0), (.groupContainers, 0),
    (.launchItems, 0), (.system, 0)],
   []⟩

/-- Concrete instantiation of the C10 theorem: a file entry contributes
nothing, and the one item of a concrete scan has type directory. -/
theorem scan_records_only_directories_witness :
    processEntry 10485760 wPorts Option.none ⟨"/t", .caches, false⟩
        (fun _ _ => .ok ([], [])) ⟨"f", "/t/f", EntryType.file⟩ 0
      = ([], []) ∧
    (∀ it ∈ wReport.items, it.type = EntryType.directory) :=
  ⟨scan_records_only_directories.1 10485760 wPorts Option.none
      ⟨"/t", .caches, false⟩ (fun _ _ => .ok ([], []))
      ⟨"f", "/t/f", EntryType.file⟩ 0 (by decide),
   scan_records_only_directories.2 wPorts seqSched Option.none Option.none
      [⟨"/t", .caches, false⟩] "now" wReport (by rfl)⟩

/-- C7: an error thrown while sizing, stat-ing, or recursing into one
entry turns into exactly one skipped record carrying the error message
(for a recursion error the already-recorded item is kept), and at any
directory level every entry's own contribution — items and skipped records
alike — is contained in the level's result, so one entry's failure leaves
its siblings' items in place. -/
theorem entry_failures_are_isolated :
    (∀ (thr : Nat) (ports : Ports) (matcher : Option AppMatcher)
        (tgt : ScanTarget)
        (recurse : String → Nat →
          Except String (List ScanItem × List SkippedItem))
        (entry : FsEntry) (d : Nat) (e : String),
        entry.type = EntryType.directory →
        ports.getSizeInKb entry.path = .error e →
        processEntry thr ports matcher tgt recurse entry d =
          ([], [⟨entry.path, e⟩])) ∧
    (∀ (thr : Nat) (ports : Ports) (matcher : Option AppMatcher)
        (tgt : ScanTarget)
        (recurse : String → Nat →
          Except String (List ScanItem × List SkippedItem))
        (entry : FsEntry) (d k : Nat) (e : String),
        entry.type = EntryType.directory →
        ports.getSizeInKb entry.path = .ok k →
        ¬ k * 1024 < thr →
        ports.stat entry.path = .error e →
        processEntry thr ports matcher tgt recurse entry d =
          ([], [⟨entry.path, e⟩])) ∧
    (∀ (thr : Nat) (ports : Ports) (matcher : Option AppMatcher)
        (tgt : ScanTarget)
        (recurse : String → Nat →
          Except String (List ScanItem × List SkippedItem))
        (entry : FsEntry) (d k : Nat) (st : FileStats) (e : String),
        entry.type = EntryType.directory →
        ports.getSizeInKb entry.path = .ok k →
        ¬ k * 1024 < thr →
        ports.stat entry.path = .ok st →
        shouldRecurseB tgt entry d = true →
        recurse entry.path (d + 1) = .error e →
        processEntry thr ports matcher tgt recurse entry d =
          ([entryScanItem matcher tgt entry k st], [⟨entry.path, e⟩])) ∧
    (∀ (thr : Nat) (ports : Ports) (matcher : Option AppMatcher) (σ : Sched)
        (tgt : ScanTarget) (fuel : Nat) (bp : String) (d : Nat)
        (es : List FsEntry) its sks,
        ports.listEntries bp = .ok es →
        scanTargetRecursive thr ports matcher σ tgt (fuel + 1) bp d =
          .ok (its, sks) →
        ¬ d > 4 →
        ∀ entry ∈ σ bp es,
          (∀ x ∈ (processEntry thr ports matcher tgt
              (scanTargetRecursive thr ports matcher σ tgt fuel)
              entry d).1, x ∈ its) ∧
          (∀ x ∈ (processEntry thr ports matcher tgt
              (scanTargetRecursive thr ports matcher σ tgt fuel)
              entry d).2, x ∈ sks)) := by
  refine ⟨?_, ?_, ?_, ?_⟩
  · intro thr ports matcher tgt recurse entry d e htype hsize
    unfold processEntry
    rw [if_neg (by simp [htype])]
    simp [hsize]
  · intro thr ports matcher tgt recurse entry d k e htype hsize hge hstat
    unfold processEntry
    rw [if_neg (by simp [htype])]
    simp only [hsize]
    rw [if_neg hge]
    simp [hstat]
  · intro thr ports matcher tgt recurse entry d k st e htype hsize hge
      hstat hsr hrec
    unfold processEntry
    rw [if_neg (by simp [htype])]
    simp only [hsize]
    rw [if_neg hge]
    simp [hstat, hsr, hrec]
  · intro thr ports matcher σ tgt fuel bp d es its sks hle h hd entry hentry
    unfold scanTargetRecursive at h
    rw [if_neg hd] at h
    simp only [hle, Except.ok.injEq, Prod.mk.injEq] at h
    rcases h with ⟨h1, h2⟩
    subst h1; subst h2
    constructor
    · intro x hx
      rw [List.map_map, List.mem_flatten]
      exact ⟨_, List.mem_map_of_mem _ hentry, hx⟩
    · intro x hx
      rw [List.map_map, List.mem_flatten]
      exact ⟨_, List.mem_map_of_mem _ hentry, hx⟩

/-- Ports for the C7 witness: sizing B fails, its sibling A is fine. -/
def wPorts2 : Ports :=
  ⟨fun _ => true,
   fun p => if p = "/t"
     then .ok [⟨"A", "/t/A", .directory⟩, ⟨"B", "/t/B", .directory⟩]
     else .ok [],
   fun p => if p = "/t/B" then .error "denied" else .ok 10240,
   fun _ => .ok ⟨"2024-01-01"⟩⟩

/-- Concrete instantiation of the C7 theorem: the failing entry B lands in
skipped with its message, and the failure leaves sibling A's item in the
level result. -/
theorem entry_failures_are_isolated_witness :
    processEntry 10485760 wPorts2 Option.none ⟨"/t", .caches, false⟩
        (scanTargetRecursive 10485760 wPorts2 Option.none seqSched
          ⟨"/t", .caches, false⟩ 5)
        ⟨"B", "/t/B", .directory⟩ 0 = ([], [⟨"/t/B", "denied"⟩]) ∧
    (∀ x ∈ (processEntry 10485760 wPorts2 Option.none ⟨"/t", .caches, false⟩
        (scanTargetRecursive 10485760 wPorts2 Option.none seqSched
          ⟨"/t", .caches, false⟩ 5)
        ⟨"A", "/t/A", .directory⟩ 0).1,
      x ∈ [⟨"A", "/t/A", .caches, 10240, 10485760, "2024-01-01",
        .directory, .low, true, "/t", Option.none, Option.none⟩]) :=
  ⟨entry_failures_are_isolated.1 10485760 wPorts2 Option.none
      ⟨"/t", .caches, false⟩ _ ⟨"B", "/t/B", .directory⟩ 0 "denied"
      rfl rfl,
   ((entry_failures_are_isolated.2.2.2 10485760 wPorts2 Option.none
      seqSched ⟨"/t", .caches, false⟩ 5 "/t" 0
      [⟨"A", "/t/A", .directory⟩, ⟨"B", "/t/B", .directory⟩]
      [⟨"A", "/t/A", .caches, 10240, 10485760, "2024-01-01",
        .directory, .low, true, "/t", Option.none, Option.none⟩]
      [⟨"/t/B", "denied"⟩]
      rfl (by rfl) (by omega)
      ⟨"A", "/t/A", .directory⟩ (by decide)).1)⟩

/-- Two level results agree up to permutation of the items: same error, or
same item multiset. -/
def itemsPermRel :
    Except String (List ScanItem × List SkippedItem) →
      Except String (List ScanItem × List SkippedItem) → Prop
  | .error e₁, .error e₂ => e₁ = e₂
  | .ok (i₁, _), .ok (i₂, _) => i₁.Perm i₂
  | _, _ => False

/-- Two scan outcomes agree up to permutation of the report items. -/
def reportItemsRel :
    Except String ScanReport → Except String ScanReport → Prop
  | .error e₁, .error e₂ => e₁ = e₂
  | .ok r₁, .ok r₂ => r₁.items.Perm r₂.items
  | _, _ => False

/-- Flattening pointwise-permuted blocks yields permuted lists. -/
theorem flatten_congr_map {α β : Type} (l : List α) (f g : α → List β)
    (h : ∀ a ∈ l, (f a).Perm (g a)) :
    ((l.map f).flatten).Perm ((l.map g).flatten) := by
  induction l with
  | nil => simp
  | cons a t ih =>
    simp only [List.map_cons, List.flatten_cons]
    exact (h a (by simp)).append (ih (fun b hb => h b (by simp [hb])))

/-- One entry task yields permuted items under continuations that agree up
to permutation. -/
theorem processEntry_items_perm (thr : Nat) (ports : Ports)
    (matcher : Option AppMatcher) (tgt : ScanTarget)
    (rec₁ rec₂ : String → Nat →
      Except String (List ScanItem × List SkippedItem))
    (entry : FsEntry) (d : Nat)
    (h : ∀ p d', itemsPermRel (rec₁ p d') (rec₂ p d')) :
    ((processEntry thr ports matcher tgt rec₁ entry d).1).Perm
      ((processEntry thr ports matcher tgt rec₂ entry d).1) := by
  unfold processEntry
  by_cases h1 : entry.type ≠ EntryType.directory
  · simp [h1]
  · push_neg at h1
    rw [if_neg (by simpa using h1), if_neg (by simpa using h1)]
    cases hsz : ports.getSizeInKb entry.path with
    | error e => simp
    | ok k =>
      simp only
      by_cases h2 : k * 1024 < thr
      · simp [h2]
      · rw [if_neg h2, if_neg h2]
        cases hst : ports.stat entry.path with
        | error e => simp
        | ok st =>
          simp only
          by_cases hsr : shouldRecurseB tgt entry d = true
          · rw [if_pos hsr, if_pos hsr]
            have hrel := h entry.path (d + 1)
            cases hr1 : rec₁ entry.path (d + 1) with
            | error e₁ =>
              cases hr2 : rec₂ entry.path (d + 1) with
              | error e₂ => simp
              | ok res₂ =>
                rw [hr1, hr2] at hrel
                rcases res₂ with ⟨i₂, s₂⟩
                exact absurd hrel (by simp [itemsPermRel])
            | ok res₁ =>
              rcases res₁ with ⟨i₁, s₁⟩
              cases hr2 : rec₂ entry.path (d + 1) with
              | error e₂ =>
                rw [hr1, hr2] at hrel
                exact absurd hrel (by simp [itemsPermRel])
              | ok res₂ =>
                rcases res₂ with ⟨i₂, s₂⟩
                rw [hr1, hr2] at hrel
                unfold itemsPermRel at hrel
                exact hrel.cons _
          · simp only [Bool.not_eq_true] at hsr
            simp [hsr]

/-- Any two valid schedules produce level results related by
itemsPermRel, at every fuel, base path and depth. -/
theorem scanTargetRecursive_sched_perm (σ₁ σ₂ : Sched)
    (h₁ : ValidSched σ₁) (h₂ : ValidSched σ₂) (thr : Nat) (ports : Ports)
    (matcher : Option AppMatcher) (tgt : ScanTarget) :
    ∀ (fuel : Nat) (bp : String) (d : Nat),
      itemsPermRel (scanTargetRecursive thr ports matcher σ₁ tgt fuel bp d)
        (scanTargetRecursive thr ports matcher σ₂ tgt fuel bp d) := by
  intro fuel
  induction fuel with
  | zero => intro bp d; simp [scanTargetRecursive, itemsPermRel]
  | succ fuel ih =>
    intro bp d
    unfold scanTargetRecursive
    by_cases hd : d > 4
    · rw [if_pos hd, if_pos hd]; simp [itemsPermRel]
    · rw [if_neg hd, if_neg hd]
      cases hle : ports.listEntries bp with
      | error e => simp [itemsPermRel]
      | ok es =>
        simp only
        unfold itemsPermRel
        simp only [List.map_map]
        show (((σ₁ bp es).map (fun entry =>
            (processEntry thr ports matcher tgt
              (scanTargetRecursive thr ports matcher σ₁ tgt fuel)
              entry d).1)).flatten).Perm
          (((σ₂ bp es).map (fun entry =>
            (processEntry thr ports matcher tgt
              (scanTargetRecursive thr ports matcher σ₂ tgt fuel)
              entry d).1)).flatten)
        have step₁ :
            (((σ₁ bp es).map (fun entry =>
              (processEntry thr ports matcher tgt
                (scanTargetRecursive thr ports matcher σ₁ tgt fuel)
                entry d).1)).flatten).Perm
            ((es.map (fun entry =>
              (processEntry thr ports matcher tgt
                (scanTargetRecursive thr ports matcher σ₁ tgt fuel)
                entry d).1)).flatten) :=
          ((h₁ bp es).map _).flatten
        have step₂ :
            ((es.map (fun entry =>
              (processEntry thr ports matcher tgt
                (scanTargetRecursive thr ports matcher σ₁ tgt fuel)
                entry d).1)).flatten).Perm
            ((es.map (fun entry =>
              (processEntry thr ports matcher tgt
                (scanTargetRecursive thr ports matcher σ₂ tgt fuel)
                entry d).1)).flatten) := by
          refine flatten_congr_map es _ _ (fun entry _ => ?_)
          exact processEntry_items_perm thr ports matcher tgt _ _ entry d
            (fun p d' => ih p d')
        have step₃ :
            ((es.map (fun entry =>
              (processEntry thr ports matcher tgt
                (scanTargetRecursive thr ports matcher σ₂ tgt fuel)
                entry d).1)).flatten).Perm
            (((σ₂ bp es).map (fun entry =>
              (processEntry thr ports matcher tgt
                (scanTargetRecursive thr ports matcher σ₂ tgt fuel)
                entry d).1)).flatten) :=
          (((h₂ bp es).map _).flatten).symm
        exact (step₁.trans step₂).trans step₃

/-- The per-target loop under two valid schedules: same error or
permuted items. -/
theorem scanTargets_sched_perm (σ₁ σ₂ : Sched)
    (h₁ : ValidSched σ₁) (h₂ : ValidSched σ₂) (thr : Nat) (ports : Ports)
    (matcher : Option AppMatcher) :
    ∀ ts : List ScanTarget,
      itemsPermRel (scanTargets thr ports matcher σ₁ ts)
        (scanTargets thr ports matcher σ₂ ts) := by
  intro ts
  induction ts with
  | nil => simp [scanTargets, itemsPermRel]
  | cons t ts ih =>
    unfold scanTargets
    have hrel := scanTargetRecursive_sched_perm σ₁ σ₂ h₁ h₂ thr ports
      matcher t 6 t.path 0
    cases hr1 : scanTargetRecursive thr ports matcher σ₁ t 6 t.path 0 with
    | error e₁ =>
      cases hr2 : scanTargetRecursive thr ports matcher σ₂ t 6 t.path 0 with
      | error e₂ =>
        rw [hr1, hr2] at hrel
        unfold itemsPermRel at hrel
        simp [itemsPermRel, hrel]
      | ok res₂ =>
        rw [hr1, hr2] at hrel
        rcases res₂ with ⟨i₂, s₂⟩
        exact absurd hrel (by simp [itemsPermRel])
    | ok res₁ =>
      rcases res₁ with ⟨i₁, s₁⟩
      cases hr2 : scanTargetRecursive thr ports matcher σ₂ t 6 t.path 0 with
      | error e₂ =>
        rw [hr1, hr2] at hrel
        exact absurd hrel (by simp [itemsPermRel])
      | ok res₂ =>
        rcases res₂ with ⟨i₂, s₂⟩
        rw [hr1, hr2] at hrel
        unfold itemsPermRel at hrel
        cases hts1 : scanTargets thr ports matcher σ₁ ts with
        | error e₁ =>
          cases hts2 : scanTargets thr ports matcher σ₂ ts with
          | error e₂ =>
            rw [hts1, hts2] at ih
            unfold itemsPermRel at ih
            simp [itemsPermRel, ih]
          | ok res₂ =>
            rw [hts1, hts2] at ih
            rcases res₂ with ⟨j₂, u₂⟩
            exact absurd ih (by simp [itemsPermRel])
        | ok resA =>
          rcases resA with ⟨j₁, u₁⟩
          cases hts2 : scanTargets thr ports matcher σ₂ ts with
          | error e₂ =>
            rw [hts1, hts2] at ih
            exact absurd ih (by simp [itemsPermRel])
          | ok resB =>
            rcases resB with ⟨j₂, u₂⟩
            rw [hts1, hts2] at ih
            unfold itemsPermRel at ih
            unfold itemsPermRel
            exact hrel.append ih

/-- C4: with deterministic ports, any two valid completion schedules of
the per-level worker pool — in particular one worker versus eight — yield
the same multiset of report items (hence the same set; only emission order
may differ), or fail with the same error. -/
theorem concurrency_does_not_change_item_set (σ₁ σ₂ : Sched)
    (h₁ : ValidSched σ₁) (h₂ : ValidSched σ₂) :
    (∀ (thr : Nat) (ports : Ports) (matcher : Option AppMatcher)
        (tgt : ScanTarget) (fuel : Nat) (bp : String) (d : Nat),
      itemsPermRel (scanTargetRecursive thr ports matcher σ₁ tgt fuel bp d)
        (scanTargetRecursive thr ports matcher σ₂ tgt fuel bp d)) ∧
    (∀ (ports : Ports) (apps : Option (List InstalledApp))
        (env : Option String) (targets : List ScanTarget) (now : String),
      reportItemsRel (scan ports σ₁ apps env targets now)
        (scan ports σ₂ apps env targets now)) := by
  constructor
  · intro thr ports matcher tgt fuel bp d
    exact scanTargetRecursive_sched_perm σ₁ σ₂ h₁ h₂ thr ports matcher tgt
      fuel bp d
  · intro ports apps env targets now
    show reportItemsRel
      (match scanTargets (scanThreshold env) ports
          (apps.map AppMatcher.build) σ₁
          (targets.filter (fun t => ports.existsPath t.path)) with
        | .error e => .error e
        | .ok (items, skipped) =>
          .ok ⟨now, targets.filter (fun t => ports.existsPath t.path),
            items, sumByCategory items, skipped⟩)
      (match scanTargets (scanThreshold env) ports
          (apps.map AppMatcher.build) σ₂
          (targets.filter (fun t => ports.existsPath t.path)) with
        | .error e => .error e
        | .ok (items, skipped) =>
          .ok ⟨now, targets.filter (fun t => ports.existsPath t.path),
            items, sumByCategory items, skipped⟩)
    have hrel := scanTargets_sched_perm σ₁ σ₂ h₁ h₂ (scanThreshold env)
      ports (apps.map AppMatcher.build)
      (targets.filter (fun t => ports.existsPath t.path))
    cases hts1 : scanTargets (scanThreshold env) ports
        (apps.map AppMatcher.build) σ₁
        (targets.filter (fun t => ports.existsPath t.path)) with
    | error e₁ =>
      cases hts2 : scanTargets (scanThreshold env) ports
          (apps.map AppMatcher.build) σ₂
          (targets.filter (fun t => ports.existsPath t.path)) with
      | error e₂ =>
        rw [hts1, hts2] at hrel
        unfold itemsPermRel at hrel
        simp [reportItemsRel, hrel]
      | ok res₂ =>
        rw [hts1, hts2] at hrel
        rcases res₂ with ⟨i₂, s₂⟩
        exact absurd hrel (by simp [itemsPermRel])
    | ok res₁ =>
      rcases res₁ with ⟨i₁, s₁⟩
      cases hts2 : scanTargets (scanThreshold env) ports
          (apps.map AppMatcher.build) σ₂
          (targets.filter (fun t => ports.existsPath t.path)) with
      | error e₂ =>
        rw [hts1, hts2] at hrel
        exact absurd hrel (by simp [itemsPermRel])
      | ok res₂ =>
        rcases res₂ with ⟨i₂, s₂⟩
        rw [hts1, hts2] at hrel
        unfold itemsPermRel at hrel
        simpa [reportItemsRel] using hrel

/-- The reversing schedule: tasks complete in reverse list order. -/
def revSched : Sched := fun _ l => l.reverse

/-- Concrete instantiation of the C4 theorem: reversed task completion
versus sequential completion on a two-entry directory. -/
theorem concurrency_does_not_change_item_set_witness :
    itemsPermRel
      (scanTargetRecursive 10485760 wPorts2 Option.none revSched
        ⟨"/t", .caches, false⟩ 6 "/t" 0)
      (scanTargetRecursive 10485760 wPorts2 Option.none seqSched
        ⟨"/t", .caches, false⟩ 6 "/t" 0) :=
  (concurrency_does_not_change_item_set revSched seqSched
      (fun _ l => l.reverse_perm) (fun _ l => List.Perm.refl l)).1
    10485760 wPorts2 Option.none ⟨"/t", .caches, false⟩ 6 "/t" 0

/-- The per-category sum of item sizes. -/
def itemsSum (c : ScanCategory) (items : List ScanItem) : Nat :=
  ((items.filter (fun it => it.category = c)).map
    (fun it => it.sizeBytes)).sum

/-- Bumping a map-shaped table is again map-shaped. -/
theorem bumpTotal_map (g : ScanCategory → Nat) (cat : ScanCategory)
    (n : Nat) :
    bumpTotal (allCategories.map (fun c => (c, g c))) cat n =
      allCategories.map
        (fun c => (c, if c = cat then g c + n else g c)) := by
  unfold bumpTotal
  rw [List.map_map]
  refine List.map_congr_left (fun c _ => ?_)
  by_cases h : c = cat
  · simp [h]
  · simp [h]

/-- The totals fold in closed form, over an arbitrary map-shaped start. -/
theorem foldl_bump_closed (items : List ScanItem) :
    ∀ g : ScanCategory → Nat,
      items.foldl (fun m it => bumpTotal m it.category it.sizeBytes)
          (allCategories.map (fun c => (c, g c))) =
        allCategories.map (fun c => (c, g c + itemsSum c items)) := by
  induction items with
  | nil => intro g; simp [itemsSum]
  | cons it its ih =>
    intro g
    rw [List.foldl_cons, bumpTotal_map, ih]
    refine List.map_congr_left (fun c _ => ?_)
    have hsum : itemsSum c (it :: its) =
        (if it.category = c then it.sizeBytes else 0) + itemsSum c its := by
      unfold itemsSum
      by_cases h : it.category = c
      · simp [List.filter_cons, h]
      · simp [List.filter_cons, h]
    rw [hsum]
    by_cases h : c = it.category
    · subst h
      simp only [↓reduceIte, Prod.mk.injEq, true_and]
      omega
    · have h' : ¬ it.category = c := fun hc => h hc.symm
      simp [h, h']

/-- sumByCategory in closed form. -/
theorem sumByCategory_closed (items : List ScanItem) :
    sumByCategory items =
      allCategories.map (fun c => (c, itemsSum c items)) := by
  unfold sumByCategory
  have h := foldl_bump_closed items (fun _ => 0)
  refine Eq.trans ?_ (Eq.trans h ?_)
  · rfl
  · exact List.map_congr_left (fun c _ => by simp)

/-- Sums of pointwise sums split. -/
theorem sum_map_add {α : Type} (l : List α) (f g : α → Nat) :
    (l.map (fun a => f a + g a)).sum = (l.map f).sum + (l.map g).sum := by
  induction l with
  | nil => simp
  | cons a t ih => simp [ih]; omega

/-- A single item's size is counted exactly once across the 8 categories. -/
theorem one_item_once (it : ScanItem) :
    (allCategories.map
      (fun c => if it.category = c then it.sizeBytes else 0)).sum =
      it.sizeBytes := by
  cases h : it.category <;> simp [allCategories, h]

/-- The category sums add up to the total item size. -/
theorem itemsSum_total (items : List ScanItem) :
    (allCategories.map (fun c => itemsSum c items)).sum =
      (items.map (fun it => it.sizeBytes)).sum := by
  induction items with
  | nil => simp [itemsSum]
  | cons it its ih =>
    have hstep : ∀ c, itemsSum c (it :: its) =
        (if it.category = c then it.sizeBytes else 0) + itemsSum c its := by
      intro c
      unfold itemsSum
      by_cases h : it.category = c
      · simp [List.filter_cons, h]
      · simp [List.filter_cons, h]
    calc (allCategories.map (fun c => itemsSum c (it :: its))).sum
        = (allCategories.map (fun c =>
            (if it.category = c then it.sizeBytes else 0) +
              itemsSum c its)).sum := by
          refine congrArg List.sum (List.map_congr_left (fun c _ => ?_))
          exact hstep c
      _ = (allCategories.map
            (fun c => if it.category = c then it.sizeBytes else 0)).sum +
          (allCategories.map (fun c => itemsSum c its)).sum :=
          sum_map_add _ _ _
      _ = it.sizeBytes + (its.map (fun x => x.sizeBytes)).sum := by
          rw [one_item_once, ih]
      _ = ((it :: its).map (fun x => x.sizeBytes)).sum := by simp

/-- C6: the totals table always carries exactly the 8 fixed category keys
in their fixed order, the value at each key is the sum of sizeBytes over
that category's items, the 8 values add up to the total item size, and a
successful scan's report carries exactly this table for its items. -/
theorem totals_by_category_correct :
    (∀ items : List ScanItem,
      (sumByCategory items).map Prod.fst = allCategories) ∧
    (∀ (items : List ScanItem) (c : ScanCategory),
      ((sumByCategory items).find? (fun p => p.1 = c)).map Prod.snd =
        some (itemsSum c items)) ∧
    (∀ items : List ScanItem,
      ((sumByCategory items).map Prod.snd).sum =
        (items.map (fun it => it.sizeBytes)).sum) ∧
    (∀ (ports : Ports) (σ : Sched) (apps : Option (List InstalledApp))
        (env : Option String) (targets : List ScanTarget) (now : String)
        (r : ScanReport),
      scan ports σ apps env targets now = .ok r →
      r.totalsByCategory = sumByCategory r.items) := by
  refine ⟨?_, ?_, ?_, ?_⟩
  · intro items
    rw [sumByCategory_closed]
    rfl
  · intro items c
    rw [sumByCategory_closed]
    cases c <;> simp [allCategories]
  · intro items
    rw [sumByCategory_closed, List.map_map]
    simpa [Function.comp] using itemsSum_total items
  · intro ports σ apps env targets now r h
    unfold scan at h
    cases hst : scanTargets (scanThreshold env) ports
        (apps.map AppMatcher.build) σ
        (targets.filter (fun t => ports.existsPath t.path)) with
    | error e => simp [hst] at h
    | ok res =>
      rcases res with ⟨items, skipped⟩
      simp only [hst, Except.ok.injEq] at h
      subst h
      rfl

/-- Concrete instantiation of the C6 theorem on the one-item report of the
concrete scan. -/
theorem totals_by_category_correct_witness :
    ((sumByCategory wReport.items).find?
        (fun p => p.1 = ScanCategory.caches)).map Prod.snd =
      some (itemsSum ScanCategory.caches wReport.items) ∧
    wReport.totalsByCategory = sumByCategory wReport.items :=
  ⟨totals_by_category_correct.2.1 wReport.items ScanCategory.caches,
   totals_by_category_correct.2.2.2 wPorts seqSched Option.none Option.none
      [⟨"/t", .caches, false⟩] "now" wReport (by rfl)⟩

/-- An inventory on which app-major and strategy-major evaluation of the
match strategies disagree: for folder name "my cool tool", the app-major
source loop reaches "Cool Tool X" through the word check (strategy 4)
before ever trying the literal-containment check (strategy 3) on "cool". -/
def cexApps : List InstalledApp :=
  [⟨"Cool Tool X", Option.none, "/Applications/CoolToolX.app"⟩,
   ⟨"cool", Option.none, "/Applications/cool.app"⟩]

/-- C5 counterexample: the source's match does not evaluate the strategies
strategy-major as the claim states — on the inventory above the app-major
source loop returns "Cool Tool X" (via the word check) where a
strategy-major evaluation returns "cool" (via literal containment,
strategy 3).  The engine is instantiated with literal containment, which
agrees with the host's regex engine on the only words this evaluation
consults ("cool" and "tool", both metacharacter-free). -/
theorem matchAppR_is_not_strategy_major :
    matchAppR containsOracle (AppMatcher.build cexApps) "my cool tool" ≠
      matchStrategyMajorR containsOracle (AppMatcher.build cexApps)
        "my cool tool" := by
  intro h
  rw [show matchAppR containsOracle (AppMatcher.build cexApps)
      "my cool tool" = .ok ⟨true, some ⟨"Cool Tool X", Option.none,
      "/Applications/CoolToolX.app"⟩, .partialName⟩ from rfl] at h
  rw [show matchStrategyMajorR containsOracle (AppMatcher.build cexApps)
      "my cool tool" = .ok ⟨true, some ⟨"cool", Option.none,
      "/Applications/cool.app"⟩, .partialName⟩ from rfl] at h
  injection h with h'
  exact absurd h' (by decide)

/-- The app-by-app pass of the source loop agrees with its first-success
formulation, for every engine. -/
theorem loopAppsR_eq_stage345R (rex : WordTest) (f fl nf : String) :
    ∀ apps, loopAppsR rex f fl nf apps = stage345R rex f fl nf apps := by
  intro apps
  induction apps with
  | nil => rfl
  | cons a rest ih =>
    by_cases h3 : strat3 f a = true
    · simp [loopAppsR, stage345R, findSomeER, perApp345R, h3]
    · cases h4 : strat4R rex fl a with
      | error e =>
        simp [loopAppsR, stage345R, findSomeER, perApp345R, h3, h4]
      | ok b =>
        cases b with
        | true =>
          simp [loopAppsR, stage345R, findSomeER, perApp345R, h3, h4]
        | false =>
          by_cases h5 : strat5 nf a = true
          · simp [loopAppsR, stage345R, findSomeER, perApp345R, h3, h4, h5]
          · simp only [loopAppsR, stage345R, findSomeER, perApp345R, h3, h4,
              h5, Bool.false_eq_true, if_false]
            simpa [stage345R] using ih

/-- C5 amended: for every word-regex engine, match evaluates exact
normalized-name lookup, exact bundle-id lookup, then one app-by-app pass
over the installed list that tries literal containment, the
significant-word check (at least one significant word, each word run
through the engine as an unescaped case-insensitive regular expression,
an engine error propagating out of match), and gated normalized
containment per app, then bundle-id cross-containment, generic overlap,
and prefix/variation matching, in that order, first success winning; with
no success it returns the not-installed result. -/
theorem matchAppR_eq_amended (rex : WordTest) (m : AppMatcher)
    (folderName : String) :
    matchAppR rex m folderName = matchAmendedSpecR rex m folderName := by
  simp only [matchAppR, matchAmendedSpecR]
  rw [loopAppsR_eq_stage345R]
  cases h1 : findMap m.appNameMap (normalizeName folderName) with
  | some app => simp [Option.or]
  | none =>
    cases h2 : findMap m.bundleIdMap (normalizeName folderName) with
    | some app => simp [Option.or]
    | none =>
      cases h3 : stage345R rex folderName (lowerStr folderName)
          (normalizeName folderName) m.installedApps with
      | error e => simp [Option.or]
      | ok o345 =>
        cases o345 with
        | some r => simp [Option.or]
        | none =>
          cases h4 : m.bundleIdMap.find? (fun e =>
              strat6 (lowerStr folderName) (normalizeName folderName) e) with
          | some e => simp [Option.or]
          | none =>
            cases h5 : m.appNameMap.find? (fun e =>
                strat7 (normalizeName folderName) e) with
            | some e => simp [Option.or]
            | none =>
              cases h6 : m.installedApps.find? (fun a =>
                  strat8 (lowerStr folderName) a) with
              | some a => simp [Option.or]
              | none => simp [Option.or]

/-- C8: a override string the threshold lexer rejects parses to nothing
and leaves the orchestrator on the default 10 MiB threshold with no error
surfaced; a lexed string with number `a / p` and unit multiplier `mult`
yields exactly `floor(number * multiplier)` bytes; an absent override also
selects the default. -/
theorem threshold_parse_fallback :
    (∀ s : String,
      lexSize (upperStr ⟨trimWs s.data⟩).data = Option.none →
      parseSizeThreshold (some s) = Option.none ∧
      scanThreshold (some s) = 10 * 1024 * 1024) ∧
    (∀ (s : String) (a p mult : Nat),
      lexSize (upperStr ⟨trimWs s.data⟩).data = some (a, p, mult) →
      parseSizeThreshold (some s) = some (a * mult / p) ∧
      scanThreshold (some s) = a * mult / p ∧
      ((a * mult / p : ℤ) = ⌊((a : ℚ) / (p : ℚ)) * (mult : ℚ)⌋)) ∧
    scanThreshold Option.none = 10 * 1024 * 1024 := by
  refine ⟨?_, ?_, rfl⟩
  · intro s h
    by_cases hs : s = ""
    · subst hs
      constructor
      · rfl
      · rfl
    · have hp : parseSizeThreshold (some s) = Option.none := by
        show (if s = "" then Option.none
          else (lexSize (upperStr ⟨trimWs s.data⟩).data).map
            (fun t => t.1 * t.2.2 / t.2.1)) = Option.none
        rw [if_neg hs, h]
        rfl
      exact ⟨hp, by unfold scanThreshold; rw [hp]; rfl⟩
  · intro s a p mult h
    by_cases hs : s = ""
    · subst hs
      rw [show lexSize (upperStr ⟨trimWs ("" : String).data⟩).data =
        Option.none from rfl] at h
      exact absurd h (by simp)
    · have hp : parseSizeThreshold (some s) = some (a * mult / p) := by
        show (if s = "" then Option.none
          else (lexSize (upperStr ⟨trimWs s.data⟩).data).map
            (fun t => t.1 * t.2.2 / t.2.1)) = some (a * mult / p)
        rw [if_neg hs, h]
        rfl
      refine ⟨hp, by unfold scanThreshold; rw [hp]; rfl, ?_⟩
      rw [div_mul_eq_mul_div]
      rw [show ((a : ℚ) * (mult : ℚ)) = ((a * mult : ℕ) : ℚ) by push_cast; ring]
      rw [Rat.floor_natCast_div_natCast]
      exact Int.ofNat_tdiv _ _

/-- Concrete instantiation of the C8 theorem: a malformed unit falls back
to the 10 MiB default, and " 1.5 kb " parses to floor(1.5 * 1024) = 1536
bytes. -/
theorem threshold_parse_fallback_witness :
    parseSizeThreshold (some "12XB") = Option.none ∧
    scanThreshold (some "12XB") = 10 * 1024 * 1024 ∧
    parseSizeThreshold (some " 1.5 kb ") = some 1536 ∧
    scanThreshold (some " 1.5 kb ") = 1536 :=
  ⟨(threshold_parse_fallback.1 "12XB" (by rfl)).1,
   (threshold_parse_fallback.1 "12XB" (by rfl)).2,
   by rw [(threshold_parse_fallback.2.1 " 1.5 kb " 15 10 1024 (by rfl)).1],
   by rw [(threshold_parse_fallback.2.1 " 1.5 kb " 15 10 1024 (by rfl)).2.1]⟩

/-- Boolean prefix test on segment lists: `pfxB q parts` holds when the
node path `q` lies on the descent path `parts`. -/
def pfxB : List String → List String → Bool
  | [], _ => true
  | _ :: _, [] => false
  | a :: as, b :: bs => a = b && pfxB as bs

/-- Size stored at a node path, 0 for a missing node. -/
def szAt (m : List (String × TreeNode)) (q : List String) : Nat :=
  match findNode m q with
  | some n => n.sizeBytes
  | Option.none => 0

/-- Leaf mark at a node path, false for a missing node. -/
def leafAt (m : List (String × TreeNode)) (q : List String) : Bool :=
  match findNode m q with
  | some n => n.isLeaf
  | Option.none => false

/-- Installed status at a node path, none for a missing node. -/
def aiAt (m : List (String × TreeNode)) (q : List String) : Option Bool :=
  match findNode m q with
  | some n => n.appInstalled
  | Option.none => Option.none

/-- Orphan mark at a node path, false for a missing node. -/
def ioAt (m : List (String × TreeNode)) (q : List String) : Bool :=
  match findNode m q with
  | some n => n.isOrphaned
  | Option.none => false

theorem findNode_nil (q : List String) (hq : q ≠ []) :
    findNode [] q = Option.none := by
  match q with
  | [] => exact absurd rfl hq
  | [p] => rfl
  | p :: r₁ :: r₂ => rfl

theorem find?_updChild_self (m : List (String × TreeNode)) (k : String)
    (f : Option TreeNode → TreeNode) :
    (updChild m k f).find? (fun e => e.1 = k) =
      some (k, f ((m.find? (fun e => e.1 = k)).map (fun e => e.2))) := by
  induction m with
  | nil => simp [updChild]
  | cons p rest ih =>
    rcases p with ⟨k', v⟩
    by_cases h : k' = k
    · subst h
      simp [updChild]
    · rw [show updChild ((k', v) :: rest) k f =
        (k', v) :: updChild rest k f by simp [updChild, h]]
      rw [List.find?_cons_of_neg _ (by simpa using h),
        List.find?_cons_of_neg _ (by simpa using h)]
      exact ih

theorem find?_updChild_other (m : List (String × TreeNode)) (k : String)
    (f : Option TreeNode → TreeNode) (p : String) (hne : p ≠ k) :
    (updChild m k f).find? (fun e => e.1 = p) =
      m.find? (fun e => e.1 = p) := by
  induction m with
  | nil =>
    rw [show updChild ([] : List (String × TreeNode)) k f =
      [(k, f Option.none)] from rfl]
    rw [List.find?_cons_of_neg _
      (by simp only [decide_eq_true_eq]; exact fun h => hne h.symm)]
  | cons e rest ih =>
    rcases e with ⟨k', v⟩
    by_cases h : k' = k
    · subst h
      rw [show updChild ((k', v) :: rest) k' f =
        (k', f (some v)) :: rest by simp [updChild]]
      by_cases hp : k' = p
      · exact absurd hp.symm hne
      · rw [List.find?_cons_of_neg _ (by simpa using hp),
          List.find?_cons_of_neg _ (by simpa using hp)]
    · rw [show updChild ((k', v) :: rest) k f =
        (k', v) :: updChild rest k f by simp [updChild, h]]
      by_cases hp : k' = p
      · rw [List.find?_cons_of_pos _ (by simpa using hp),
          List.find?_cons_of_pos _ (by simpa using hp)]
      · rw [List.find?_cons_of_neg _ (by simpa using hp),
          List.find?_cons_of_neg _ (by simpa using hp)]
        exact ih

theorem findNode_updChild_other (m : List (String × TreeNode)) (k : String)
    (f : Option TreeNode → TreeNode) (p : String) (qrest : List String)
    (hne : p ≠ k) :
    findNode (updChild m k f) (p :: qrest) = findNode m (p :: qrest) := by
  match qrest with
  | [] =>
    show ((updChild m k f).find? (fun e => e.1 = p)).map (fun e => e.2) = _
    rw [find?_updChild_other m k f p hne]
    rfl
  | r₁ :: r₂ =>
    show (match ((updChild m k f).find? (fun e => e.1 = p)).map
        (fun e => e.2) with
      | some n => findNode n.children (r₁ :: r₂)
      | Option.none => Option.none) = _
    rw [find?_updChild_other m k f p hne]
    rfl

theorem findNode_updChild_self_one (m : List (String × TreeNode))
    (k : String) (f : Option TreeNode → TreeNode) :
    findNode (updChild m k f) [k] =
      some (f ((m.find? (fun e => e.1 = k)).map (fun e => e.2))) := by
  show ((updChild m k f).find? (fun e => e.1 = k)).map (fun e => e.2) = _
  rw [find?_updChild_self]
  rfl

theorem findNode_updChild_self_deep (m : List (String × TreeNode))
    (k : String) (f : Option TreeNode → TreeNode) (r₁ : String)
    (r₂ : List String) :
    findNode (updChild m k f) (k :: r₁ :: r₂) =
      findNode (f ((m.find? (fun e => e.1 = k)).map
        (fun e => e.2))).children (r₁ :: r₂) := by
  show (match ((updChild m k f).find? (fun e => e.1 = k)).map
      (fun e => e.2) with
    | some n => findNode n.children (r₁ :: r₂)
    | Option.none => Option.none) = _
  rw [find?_updChild_self]
  rfl

theorem findNode_one (m : List (String × TreeNode)) (p : String) :
    findNode m [p] = (m.find? (fun e => e.1 = p)).map (fun e => e.2) := rfl

theorem findNode_deep (m : List (String × TreeNode)) (p : String)
    (r₁ : String) (r₂ : List String) :
    findNode m (p :: r₁ :: r₂) =
      (match (m.find? (fun e => e.1 = p)).map (fun e => e.2) with
        | some n => findNode n.children (r₁ :: r₂)
        | Option.none => Option.none) := rfl

/-- Effect of one item insertion on any node path: paths off the item's
descent are untouched; paths on it gain the item's size; a strictly
shorter path keeps its leaf mark and inherits status first-wins; the
terminal path becomes a leaf and has its status overwritten. -/
theorem insertParts_spec (item : ScanItem) :
    ∀ (parts q : List String) (curPath : String) (i : Nat)
      (m : List (String × TreeNode)), parts ≠ [] → q ≠ [] →
      (pfxB q parts = false →
        findNode (insertParts item parts curPath i m) q = findNode m q) ∧
      (pfxB q parts = true →
        (szAt (insertParts item parts curPath i m) q =
          szAt m q + item.sizeBytes) ∧
        (q ≠ parts →
          leafAt (insertParts item parts curPath i m) q = leafAt m q ∧
          aiAt (insertParts item parts curPath i m) q =
            (if (aiAt m q).isNone && item.appInstalled.isSome
             then item.appInstalled else aiAt m q) ∧
          ioAt (insertParts item parts curPath i m) q =
            (if (aiAt m q).isNone && item.appInstalled.isSome
             then decide (item.appInstalled = some false)
             else ioAt m q)) ∧
        (q = parts →
          leafAt (insertParts item parts curPath i m) q = true ∧
          aiAt (insertParts item parts curPath i m) q =
            item.appInstalled ∧
          ioAt (insertParts item parts curPath i m) q =
            decide (item.appInstalled = some false))) := by
  intro parts
  induction parts with
  | nil => intro q curPath i m hp hq; exact absurd rfl hp
  | cons part rest ih =>
    intro q curPath i m hp hq
    match q, hq with
    | p :: qrest, _ =>
    by_cases hpq : p = part
    case neg =>
      have hfalse : pfxB (p :: qrest) (part :: rest) = false := by
        simp [pfxB, hpq]
      refine ⟨fun _ => ?_, fun htrue => absurd htrue (by simp [hfalse])⟩
      cases rest with
      | nil => exact findNode_updChild_other m part _ p qrest hpq
      | cons r rs => exact findNode_updChild_other m part _ p qrest hpq
    case pos =>
      subst hpq
      cases rest with
      | nil =>
        cases qrest with
        | nil =>
          have htrue : pfxB [p] [p] = true := by simp [pfxB]
          refine ⟨fun hfalse => absurd htrue (by simp [hfalse]), fun _ => ?_⟩
          have hfind :
              findNode (insertParts item [p] curPath i m) [p] =
                some (setLeaf
                  (((m.find? (fun e => e.1 = p)).map
                    (fun e => e.2)).getD (freshNode p (pathJoin curPath p) i))
                  item) := by
            show findNode (updChild m p _) [p] = _
            rw [findNode_updChild_self_one]
          refine ⟨?_, fun hne => absurd rfl hne, fun _ => ⟨?_, ?_, ?_⟩⟩
          · simp only [szAt, hfind, findNode_one]
            cases hold : m.find? (fun e => e.1 = p) with
            | some e => rfl
            | none => rfl
          · simp only [leafAt, hfind]
            rfl
          · simp only [aiAt, hfind]
            rfl
          · simp only [ioAt, hfind]
            rfl
        | cons r₁ r₂ =>
          have hfalse : pfxB (p :: r₁ :: r₂) [p] = false := by
            simp [pfxB]
          refine ⟨fun _ => ?_, fun htrue => absurd htrue (by simp [hfalse])⟩
          show findNode (updChild m p _) (p :: r₁ :: r₂) = _
          rw [findNode_updChild_self_deep, findNode_deep]
          cases hold : m.find? (fun e => e.1 = p) with
          | some e => rfl
          | none =>
            rw [show (setLeaf ((Option.map (fun e => e.2)
                (Option.none : Option (String × TreeNode))).getD
                (freshNode p (pathJoin curPath p) i)) item).children =
              ([] : List (String × TreeNode)) from rfl]
            rw [findNode_nil _ (by simp)]
            rfl
      | cons r rs =>
        cases qrest with
        | nil =>
          have htrue : pfxB [p] (p :: r :: rs) = true := by simp [pfxB]
          refine ⟨fun hfalse => absurd htrue (by simp [hfalse]), fun _ => ?_⟩
          have hfind :
              findNode (insertParts item (p :: r :: rs) curPath i m) [p] =
                some (
                  let n := ((m.find? (fun e => e.1 = p)).map
                    (fun e => e.2)).getD (freshNode p (pathJoin curPath p) i)
                  let inherited :=
                    n.appInstalled.isNone && item.appInstalled.isSome
                  TreeNode.node n.name n.fullPath
                    (n.sizeBytes + item.sizeBytes) n.items
                    (insertParts item (r :: rs) (pathJoin curPath p) (i + 1)
                      n.children)
                    n.isLeaf n.depth
                    (if inherited then item.appInstalled else n.appInstalled)
                    (if inherited then item.matchedAppName
                     else n.matchedAppName)
                    (if inherited then (item.appInstalled = some false)
                     else n.isOrphaned)) := by
            show findNode (updChild m p _) [p] = _
            rw [findNode_updChild_self_one]
          refine ⟨?_, fun _ => ⟨?_, ?_, ?_⟩, fun heq => by simp at heq⟩
          · simp only [szAt, hfind, findNode_one]
            cases hold : m.find? (fun e => e.1 = p) with
            | some e => rfl
            | none => rfl
          · simp only [leafAt, hfind, findNode_one]
            cases hold : m.find? (fun e => e.1 = p) with
            | some e => rfl
            | none => rfl
          · simp only [aiAt, hfind, findNode_one]
            cases hold : m.find? (fun e => e.1 = p) with
            | some e => rfl
            | none => rfl
          · simp only [ioAt, aiAt, hfind, findNode_one]
            cases hold : m.find? (fun e => e.1 = p) with
            | some e => rfl
            | none => rfl
        | cons r₁ r₂ =>
          have hpfx : pfxB (p :: r₁ :: r₂) (p :: r :: rs) =
              pfxB (r₁ :: r₂) (r :: rs) := by
            simp [pfxB]
          have hbase :
              findNode (insertParts item (p :: r :: rs) curPath i m)
                  (p :: r₁ :: r₂) =
                findNode (insertParts item (r :: rs) (pathJoin curPath p)
                  (i + 1)
                  ((((m.find? (fun e => e.1 = p)).map (fun e => e.2)).getD
                    (freshNode p (pathJoin curPath p) i)).children))
                  (r₁ :: r₂) := by
            show findNode (updChild m p _) (p :: r₁ :: r₂) = _
            rw [findNode_updChild_self_deep]
            rfl
          have hold2 :
              findNode m (p :: r₁ :: r₂) =
                findNode ((((m.find? (fun e => e.1 = p)).map
                  (fun e => e.2)).getD
                  (freshNode p (pathJoin curPath p) i)).children)
                  (r₁ :: r₂) := by
            rw [findNode_deep]
            cases hold : m.find? (fun e => e.1 = p) with
            | some e => rfl
            | none =>
              rw [show (((Option.map (fun e => e.2)
                  (Option.none : Option (String × TreeNode))).getD
                  (freshNode p (pathJoin curPath p) i)).children) =
                ([] : List (String × TreeNode)) from rfl]
              rw [findNode_nil _ (by simp)]
              rfl
          have hIH := ih (r₁ :: r₂) (pathJoin curPath p) (i + 1)
            ((((m.find? (fun e => e.1 = p)).map (fun e => e.2)).getD
              (freshNode p (pathJoin curPath p) i)).children)
            (by simp) (by simp)
          have hszL : szAt (insertParts item (p :: r :: rs) curPath i m)
              (p :: r₁ :: r₂) =
              szAt (insertParts item (r :: rs) (pathJoin curPath p) (i + 1)
                ((((m.find? (fun e => e.1 = p)).map (fun e => e.2)).getD
                  (freshNode p (pathJoin curPath p) i)).children))
                (r₁ :: r₂) := by
            simp only [szAt, hbase]
          have hszR : szAt m (p :: r₁ :: r₂) =
              szAt ((((m.find? (fun e => e.1 = p)).map (fun e => e.2)).getD
                  (freshNode p (pathJoin curPath p) i)).children)
                (r₁ :: r₂) := by
            simp only [szAt, hold2]
          have hlfL : leafAt (insertParts item (p :: r :: rs) curPath i m)
              (p :: r₁ :: r₂) =
              leafAt (insertParts item (r :: rs) (pathJoin curPath p) (i + 1)
                ((((m.find? (fun e => e.1 = p)).map (fun e => e.2)).getD
                  (freshNode p (pathJoin curPath p) i)).children))
                (r₁ :: r₂) := by
            simp only [leafAt, hbase]
          have hlfR : leafAt m (p :: r₁ :: r₂) =
              leafAt ((((m.find? (fun e => e.1 = p)).map (fun e => e.2)).getD
                  (freshNode p (pathJoin curPath p) i)).children)
                (r₁ :: r₂) := by
            simp only [leafAt, hold2]
          have haiL : aiAt (insertParts item (p :: r :: rs) curPath i m)
              (p :: r₁ :: r₂) =
              aiAt (insertParts item (r :: rs) (pathJoin curPath p) (i + 1)
                ((((m.find? (fun e => e.1 = p)).map (fun e => e.2)).getD
                  (freshNode p (pathJoin curPath p) i)).children))
                (r₁ :: r₂) := by
            simp only [aiAt, hbase]
          have haiR : aiAt m (p :: r₁ :: r₂) =
              aiAt ((((m.find? (fun e => e.1 = p)).map (fun e => e.2)).getD
                  (freshNode p (pathJoin curPath p) i)).children)
                (r₁ :: r₂) := by
            simp only [aiAt, hold2]
          have hioL : ioAt (insertParts item (p :: r :: rs) curPath i m)
              (p :: r₁ :: r₂) =
              ioAt (insertParts item (r :: rs) (pathJoin curPath p) (i + 1)
                ((((m.find? (fun e => e.1 = p)).map (fun e => e.2)).getD
                  (freshNode p (pathJoin curPath p) i)).children))
                (r₁ :: r₂) := by
            simp only [ioAt, hbase]
          have hioR : ioAt m (p :: r₁ :: r₂) =
              ioAt ((((m.find? (fun e => e.1 = p)).map (fun e => e.2)).getD
                  (freshNode p (pathJoin curPath p) i)).children)
                (r₁ :: r₂) := by
            simp only [ioAt, hold2]
          constructor
          · intro hfalse
            rw [hpfx] at hfalse
            rw [hbase, hIH.1 hfalse, hold2]
          · intro htrue
            rw [hpfx] at htrue
            refine ⟨?_, fun hne => ?_, fun heq => ?_⟩
            · rw [hszL, hszR]
              exact (hIH.2 htrue).1
            · have hne' : r₁ :: r₂ ≠ (r :: rs : List String) := by
                intro hc
                exact hne (by rw [hc])
              have h1 := (hIH.2 htrue).2.1 hne'
              refine ⟨?_, ?_, ?_⟩
              · rw [hlfL, hlfR]
                exact h1.1
              · rw [haiL, haiR]
                exact h1.2.1
              · rw [hioL, hioR, haiR]
                exact h1.2.2
            · have heq' : r₁ :: r₂ = (r :: rs : List String) := by
                injection heq
              have h1 := (hIH.2 htrue).2.2 heq'
              refine ⟨?_, ?_, ?_⟩
              · rw [hlfL]
                exact h1.1
              · rw [haiL]
                exact h1.2.1
              · rw [hioL]
                exact h1.2.2

theorem pfxB_nil_right (q : List String) (hq : q ≠ []) :
    pfxB q [] = false := by
  match q with
  | [] => exact absurd rfl hq
  | a :: as => rfl

theorem pfxB_refl (q : List String) : pfxB q q = true := by
  induction q with
  | nil => rfl
  | cons a as ih => simp [pfxB, ih]

/-- Per-step size effect of the buildTree loop. -/
theorem buildStep_szAt (base : String) (m : List (String × TreeNode))
    (it : ScanItem) (q : List String) (hq : q ≠ []) :
    szAt (buildStep base m it) q =
      szAt m q +
        (if pfxB q (relParts it.path base) then it.sizeBytes else 0) := by
  unfold buildStep
  cases hparts : relParts it.path base with
  | nil => simp [pfxB_nil_right q hq]
  | cons a as =>
    simp only [List.isEmpty_cons, if_neg Bool.false_ne_true]
    have hspec := insertParts_spec it (a :: as) q base 0 m (by simp) hq
    by_cases hp : pfxB q (a :: as) = true
    · rw [if_pos hp]
      exact (hspec.2 hp).1
    · have hp' : pfxB q (a :: as) = false := by simpa using hp
      rw [if_neg (by simp [hp'])]
      unfold szAt
      rw [hspec.1 hp']
      simp

/-- Per-step leaf effect of the buildTree loop. -/
theorem buildStep_leafAt (base : String) (m : List (String × TreeNode))
    (it : ScanItem) (q : List String) (hq : q ≠ []) :
    leafAt (buildStep base m it) q =
      (leafAt m q || decide (relParts it.path base = q)) := by
  unfold buildStep
  cases hparts : relParts it.path base with
  | nil =>
    have : (([] : List String) = q) = False := by
      simp [Ne.symm hq]
    simp [this]
  | cons a as =>
    simp only [List.isEmpty_cons, if_neg Bool.false_ne_true]
    have hspec := insertParts_spec it (a :: as) q base 0 m (by simp) hq
    by_cases hp : pfxB q (a :: as) = true
    · by_cases heq : q = a :: as
      · subst heq
        rw [((hspec.2 hp).2.2 rfl).1]
        simp
      · rw [((hspec.2 hp).2.1 heq).1]
        have hne : ¬ (a :: as : List String) = q := fun h => heq h.symm
        simp [hne]
    · have hp' : pfxB q (a :: as) = false := by simpa using hp
      have hne : ¬ (a :: as : List String) = q := by
        intro heq
        rw [heq, pfxB_refl] at hp'
        exact Bool.noConfusion hp'
      unfold leafAt
      rw [hspec.1 hp']
      simp [hne]

/-- Per-step status effect of the buildTree loop, away from the item's
terminal path. -/
theorem buildStep_status (base : String) (m : List (String × TreeNode))
    (it : ScanItem) (q : List String) (hq : q ≠ [])
    (hne : relParts it.path base ≠ q) :
    aiAt (buildStep base m it) q =
      (if (aiAt m q).isNone &&
          (if pfxB q (relParts it.path base) then it.appInstalled
           else Option.none).isSome
       then (if pfxB q (relParts it.path base) then it.appInstalled
             else Option.none)
       else aiAt m q) ∧
    ioAt (buildStep base m it) q =
      (if (aiAt m q).isNone &&
          (if pfxB q (relParts it.path base) then it.appInstalled
           else Option.none).isSome
       then decide ((if pfxB q (relParts it.path base) then it.appInstalled
             else Option.none) = some false)
       else ioAt m q) := by
  unfold buildStep
  cases hparts : relParts it.path base with
  | nil => simp [pfxB_nil_right q hq]
  | cons a as =>
    simp only [List.isEmpty_cons, if_neg Bool.false_ne_true]
    have hspec := insertParts_spec it (a :: as) q base 0 m (by simp) hq
    rw [hparts] at hne
    by_cases hp : pfxB q (a :: as) = true
    · have hqne : q ≠ a :: as := fun h => hne h.symm
      have h1 := (hspec.2 hp).2.1 hqne
      rw [hp]
      simp only [↓reduceIte]
      exact ⟨h1.2.1, h1.2.2⟩
    · have hp' : pfxB q (a :: as) = false := by simpa using hp
      rw [hp']
      simp only [Bool.false_eq_true, ↓reduceIte, Option.isSome_none,
        Bool.and_false]
      constructor
      · unfold aiAt
        rw [hspec.1 hp']
      · unfold ioAt
        rw [hspec.1 hp']

/-- Sizes accumulated over the buildTree loop. -/
theorem buildFold_szAt (base : String) (q : List String) (hq : q ≠ []) :
    ∀ (L : List ScanItem) (m : List (String × TreeNode)),
      szAt (L.foldl (buildStep base) m) q =
        szAt m q + (L.map (fun it =>
          if pfxB q (relParts it.path base) then it.sizeBytes else 0)).sum := by
  intro L
  induction L with
  | nil => intro m; simp
  | cons it L ih =>
    intro m
    rw [List.foldl_cons, ih, buildStep_szAt base m it q hq]
    simp [Nat.add_assoc]

/-- Leaf marks accumulated over the buildTree loop. -/
theorem buildFold_leafAt (base : String) (q : List String) (hq : q ≠ []) :
    ∀ (L : List ScanItem) (m : List (String × TreeNode)),
      leafAt (L.foldl (buildStep base) m) q =
        (leafAt m q ||
          L.any (fun it => decide (relParts it.path base = q))) := by
  intro L
  induction L with
  | nil => intro m; simp
  | cons it L ih =>
    intro m
    rw [List.foldl_cons, ih, buildStep_leafAt base m it q hq]
    simp [Bool.or_assoc]

/-- Status accumulated over the buildTree loop: first-wins inheritance
from the items passing through `q`, provided no item terminates at `q`. -/
theorem buildFold_status (base : String) (q : List String) (hq : q ≠ []) :
    ∀ (L : List ScanItem), (∀ it ∈ L, relParts it.path base ≠ q) →
      ∀ (m : List (String × TreeNode)),
      aiAt (L.foldl (buildStep base) m) q =
        ((aiAt m q).or (L.findSome? (fun it =>
          if pfxB q (relParts it.path base) then it.appInstalled
          else Option.none))) ∧
      ioAt (L.foldl (buildStep base) m) q =
        (if (aiAt m q).isSome then ioAt m q
         else ((L.findSome? (fun it =>
            if pfxB q (relParts it.path base) then it.appInstalled
            else Option.none)).map
              (fun v => decide (v = false))).getD (ioAt m q)) := by
  intro L
  induction L with
  | nil =>
    intro _ m
    constructor
    · cases h : aiAt m q <;> simp [List.findSome?, Option.or, h]
    · cases h : aiAt m q <;> simp [List.findSome?, h]
  | cons it L ih =>
    intro hnone m
    have hne := hnone it (by simp)
    have hstep := buildStep_status base m it q hq hne
    have ihm := ih (fun a ha => hnone a (by simp [ha]))
      (buildStep base m it)
    rw [List.foldl_cons] at *
    cases hf : (if pfxB q (relParts it.path base) then it.appInstalled
        else Option.none) with
    | none =>
      have hai : aiAt (buildStep base m it) q = aiAt m q := by
        rw [hstep.1, hf]
        simp
      have hio : ioAt (buildStep base m it) q = ioAt m q := by
        rw [hstep.2, hf]
        simp
      rw [List.findSome?_cons, hf]
      exact ⟨by rw [ihm.1, hai], by rw [ihm.2, hai, hio]⟩
    | some v =>
      cases hm : aiAt m q with
      | some w =>
        have hai : aiAt (buildStep base m it) q = some w := by
          rw [hstep.1, hm]
          simp
        have hio : ioAt (buildStep base m it) q = ioAt m q := by
          rw [hstep.2, hm]
          simp
        rw [List.findSome?_cons, hf]
        constructor
        · rw [ihm.1, hai]
          simp [Option.or]
        · rw [ihm.2, hai, hio]
          simp
      | none =>
        have hai : aiAt (buildStep base m it) q = some v := by
          rw [hstep.1, hm, hf]
          simp
        have hio : ioAt (buildStep base m it) q =
            decide (some v = (some false : Option Bool)) := by
          rw [hstep.2, hm, hf]
          simp
        rw [List.findSome?_cons, hf]
        constructor
        · rw [ihm.1, hai]
          simp [Option.or]
        · rw [ihm.2, hai, hio]
          have : decide (some v = (some false : Option Bool)) =
              decide (v = false) := by
            cases v <;> rfl
          simp [this]

/-- The two concrete leaves and the aggregate of the claim's example. -/
def wNodeB : TreeNode :=
  .node "B" "/base/A/B" 10 [bareItem "/base/A/B" 10] [] true 1
    Option.none Option.none false

def wNodeC : TreeNode :=
  .node "C" "/base/A/C" 5 [bareItem "/base/A/C" 5] [] true 1
    Option.none Option.none false

def wNodeA : TreeNode :=
  .node "A" "/base/A" 15 [] [("B", wNodeB), ("C", wNodeC)] false 0
    Option.none Option.none false

/-- C9: in the tree built from a list of scan items, every node's
sizeBytes is the sum of the sizes of the items whose relative path passes
through or terminates at it, a node carries the leaf mark exactly when
some item's relative path terminates there, a node at which no item
terminates takes installed status and orphan mark from the first item in
list order passing through it that carries a value, and the claim's
two-item example produces node "A" of size 15 with leaf children "B" (10)
and "C" (5). -/
theorem buildTree_aggregation :
    (∀ (L : List ScanItem) (base : String) (q : List String) (n : TreeNode),
      q ≠ [] →
      findNode (buildTree L base) q = some n →
      n.sizeBytes = (L.map (fun it =>
        if pfxB q (relParts it.path base) then it.sizeBytes else 0)).sum ∧
      (n.isLeaf = true ↔ ∃ it ∈ L, relParts it.path base = q)) ∧
    (∀ (L : List ScanItem) (base : String) (q : List String) (n : TreeNode),
      q ≠ [] →
      (∀ it ∈ L, relParts it.path base ≠ q) →
      findNode (buildTree L base) q = some n →
      n.appInstalled = L.findSome? (fun it =>
        if pfxB q (relParts it.path base) then it.appInstalled
        else Option.none) ∧
      n.isOrphaned = ((L.findSome? (fun it =>
        if pfxB q (relParts it.path base) then it.appInstalled
        else Option.none)).map (fun v => decide (v = false))).getD false) ∧
    (findNode (buildTree [bareItem "/base/A/B" 10, bareItem "/base/A/C" 5]
        "/base") ["A"] = some wNodeA ∧
      wNodeA.sizeBytes = 15 ∧
      findNode (buildTree [bareItem "/base/A/B" 10, bareItem "/base/A/C" 5]
        "/base") ["A", "B"] = some wNodeB ∧
      wNodeB.sizeBytes = 10 ∧ wNodeB.isLeaf = true ∧
      findNode (buildTree [bareItem "/base/A/B" 10, bareItem "/base/A/C" 5]
        "/base") ["A", "C"] = some wNodeC ∧
      wNodeC.sizeBytes = 5 ∧ wNodeC.isLeaf = true) := by
  refine ⟨?_, ?_, by rfl, by rfl, by rfl, by rfl, by rfl,
    by rfl, by rfl, by rfl⟩
  · intro L base q n hq hfind
    have hsz := buildFold_szAt base q hq L []
    have hlf := buildFold_leafAt base q hq L []
    rw [show (L.foldl (buildStep base) [] : List (String × TreeNode)) =
      buildTree L base from rfl] at hsz hlf
    unfold szAt at hsz
    unfold leafAt at hlf
    rw [hfind, findNode_nil q hq] at hsz hlf
    constructor
    · simpa using hsz
    · have hlf' : n.isLeaf =
          (L.any fun it => decide (relParts it.path base = q)) := by
        simpa using hlf
      rw [hlf']
      simp
  · intro L base q n hq hterm hfind
    have hst := buildFold_status base q hq L hterm []
    rw [show (L.foldl (buildStep base) [] : List (String × TreeNode)) =
      buildTree L base from rfl] at hst
    unfold aiAt ioAt at hst
    rw [hfind, findNode_nil q hq] at hst
    rcases hst with ⟨hai, hio⟩
    constructor
    · simpa [Option.or] using hai
    · simpa using hio

/-- Concrete instantiation of the C9 theorem at the example's aggregate
node "A": size sum, leaf criterion, and first-wins status. -/
theorem buildTree_aggregation_witness :
    (wNodeA.sizeBytes =
      (([bareItem "/base/A/B" 10, bareItem "/base/A/C" 5]).map
        (fun it => if pfxB ["A"] (relParts it.path "/base")
          then it.sizeBytes else 0)).sum ∧
      (wNodeA.isLeaf = true ↔
        ∃ it ∈ [bareItem "/base/A/B" 10, bareItem "/base/A/C" 5],
          relParts it.path "/base" = ["A"])) ∧
    wNodeA.appInstalled =
      ([bareItem "/base/A/B" 10, bareItem "/base/A/C" 5].findSome?
        (fun it => if pfxB ["A"] (relParts it.path "/base")
          then it.appInstalled else Option.none)) :=
  ⟨buildTree_aggregation.1
      [bareItem "/base/A/B" 10, bareItem "/base/A/C" 5] "/base" ["A"]
      wNodeA (by simp) (by rfl),
   (buildTree_aggregation.2.1
      [bareItem "/base/A/B" 10, bareItem "/base/A/C" 5] "/base" ["A"]
      wNodeA (by simp) (by decide) (by rfl)).1⟩

end CleanMyMac
